import Mathlib

/-! react-tridi: the interaction state machine of `src/index.js`

A shallow embedding of the `Tridi` component's state (the `useState` cells),
its configuration (the props the handlers read), the notifications it fires
(the `on...` callback props) and its handlers.

Conventions of the embedding.

* A handler runs inside one render of the component: every state variable it
  reads is the value captured by that render (`r`, the rendered snapshot),
  and every `setX(v)` it performs is recorded in an accumulator (`Eff`), the
  state of the next render plus the notifications fired so far, in order.
* Integer-valued JavaScript numbers (frame indices, pixel coordinates,
  intervals) are `Int`; `undefined` array reads are `Option`.
* `TridiUtils.uid()` reads the clock and the random generator; the identifier
  it returns is an input of the click event.
-/

namespace Tridi

/-- A pin `{ id, frameId, x, y }`; `x` and `y` are the strings produced by `toFixed(6)`. -/
structure Pin where
  id : String
  frameId : Int
  x : String
  y : String
  deriving DecidableEq, Repr

/-- The callback props, as typed notifications with their payload. -/
inductive Notif where
  | onAutoplayStart
  | onAutoplayStop
  | onNextMove
  | onPrevMove
  | onNextFrame
  | onPrevFrame
  | onDragStart
  | onDragEnd
  | onFrameChange (index : Int)
  | onRecordStart (pins : List Pin)
  | onRecordStop (pins : List Pin)
  | onPinClick (pin : Pin)
  deriving DecidableEq, Repr

/-- The props read by the handlers. `count` is `_count` (line 98). -/
structure Config where
  count : Int
  propPins : Option (List Pin) := none
  draggable : Bool := true
  autoplay : Bool := false
  stopAutoplayOnClick : Bool := false
  stopAutoplayOnMouseEnter : Bool := false
  resumeAutoplayOnMouseLeave : Bool := false
  touch : Bool := true
  mousewheel : Bool := false
  inverse : Bool := false
  dragInterval : Int := 1
  touchDragInterval : Int := 2
  mouseleaveDetect : Bool := false
  deriving DecidableEq, Repr

/-- The `useState` cells of the component (lines 90-96, `hintVisible` apart). -/
structure State where
  moveBuffer : List Int
  currentImageIndex : Int
  isDragging : Bool
  isAutoPlayRunning : Bool
  isRecording : Bool
  pins : List Pin
  deriving DecidableEq, Repr

/-- The values the cells are created with (lines 90-96). -/
def initialState (cfg : Config) : State :=
  { moveBuffer := []
    currentImageIndex := 0
    isDragging := false
    isAutoPlayRunning := false
    isRecording := false
    pins := cfg.propPins.getD [] }

/-- The geometry read from `_viewerImageRef.current`. -/
structure Viewer where
  offsetLeft : Int
  clientWidth : Int
  clientHeight : Int
  deriving DecidableEq, Repr

/-- The state of the next render and the notifications fired so far. -/
abbrev Eff := State × List Notif

/-- Calling a callback prop. -/
def fire (n : Notif) (acc : Eff) : Eff := (acc.1, acc.2 ++ [n])

def setMoveBuffer (b : List Int) (acc : Eff) : Eff := ({ acc.1 with moveBuffer := b }, acc.2)

def setCurrentImageIndex (i : Int) (acc : Eff) : Eff :=
  ({ acc.1 with currentImageIndex := i }, acc.2)

def setIsDragging (b : Bool) (acc : Eff) : Eff := ({ acc.1 with isDragging := b }, acc.2)

def setIsAutoPlayRunning (b : Bool) (acc : Eff) : Eff :=
  ({ acc.1 with isAutoPlayRunning := b }, acc.2)

def setIsRecording (b : Bool) (acc : Eff) : Eff := ({ acc.1 with isRecording := b }, acc.2)

def setPins (ps : List Pin) (acc : Eff) : Eff := ({ acc.1 with pins := ps }, acc.2)

/-! ## Frame sequencer (lines 108-130) -/

/-- The `newIndex` of `nextFrame` (line 109). -/
def nextIndex (cfg : Config) (r : State) : Int :=
  if r.currentImageIndex ≥ cfg.count - 1 then 0 else r.currentImageIndex + 1

/-- The `newIndex` of `prevFrame` (line 116). -/
def prevIndex (cfg : Config) (r : State) : Int :=
  if r.currentImageIndex ≤ 0 then cfg.count - 1 else r.currentImageIndex - 1

/-- Lines 108-113. -/
def nextFrame (cfg : Config) (r : State) (acc : Eff) : Eff :=
  let newIndex := nextIndex cfg r
  fire (.onFrameChange newIndex) (fire .onNextFrame (setCurrentImageIndex newIndex acc))

/-- Lines 115-120. -/
def prevFrame (cfg : Config) (r : State) (acc : Eff) : Eff :=
  let newIndex := prevIndex cfg r
  fire (.onFrameChange newIndex) (fire .onPrevFrame (setCurrentImageIndex newIndex acc))

/-- Lines 122-125. -/
def nextMove (cfg : Config) (r : State) (acc : Eff) : Eff :=
  let acc := fire .onNextMove acc
  if cfg.inverse then prevFrame cfg r acc else nextFrame cfg r acc

/-- Lines 127-130. -/
def prevMove (cfg : Config) (r : State) (acc : Eff) : Eff :=
  let acc := fire .onPrevMove acc
  if cfg.inverse then nextFrame cfg r acc else prevFrame cfg r acc

/-! ## Gesture interpreter (lines 132-166) -/

/-- The event object `e` of a gesture handler: a mouse event carries `clientX`,
a touch event carries `touches[0].clientX`. -/
inductive GestureEvt where
  | mouse (clientX : Int)
  | touch (clientX : Rat)
  deriving DecidableEq, Repr

/-- The function `Math.round`: the nearest integer, halves towards plus infinity. -/
def mathRound (x : Rat) : Int := Rat.floor (x + 1 / 2)

/-- The test `!(coord % interval)` of line 144 on integers: the remainder of `%`
takes the sign of the dividend, and a zero divisor gives `NaN`, which is falsy. -/
def notRem (coord interval : Int) : Bool :=
  if interval = 0 then true else coord.tmod interval == 0

/-- The comparison `a < b` where either side may be `undefined`
(an `undefined` operand converts to `NaN`, and the comparison is false). -/
def jsLt : Option Int → Option Int → Bool
  | some a, some b => decide (a < b)
  | _, _ => false

/-- The `interval` of line 134. -/
def gestureInterval (cfg : Config) : GestureEvt → Int
  | .touch _ => cfg.touchDragInterval
  | .mouse _ => cfg.dragInterval

/-- The `eventX` of line 135. -/
def gestureEventX : GestureEvt → Int
  | .touch x => mathRound x
  | .mouse x => x

/-- The `coord` of line 136. -/
def gestureCoord (v : Viewer) (e : GestureEvt) : Int := gestureEventX e - v.offsetLeft

/-- The `newMoveBufffer` of lines 137-142. In the second branch the buffer has at
least two entries, so the default of `getD` is never used. -/
def pushMove (moveBuffer : List Int) (coord : Int) : List Int :=
  if moveBuffer.length < 2 then moveBuffer ++ [coord] else [moveBuffer.getD 1 0, coord]

/-- Lines 132-154. -/
def rotateViewerImage (cfg : Config) (v : Viewer) (r : State) (e : GestureEvt) (acc : Eff) : Eff :=
  let interval := gestureInterval cfg e
  let coord := gestureCoord v e
  let newMoveBufffer := pushMove r.moveBuffer coord
  let acc := setMoveBuffer newMoveBufffer acc
  let threshold := notRem coord interval
  let oldMove := newMoveBufffer[0]?
  let newMove := newMoveBufffer[1]?
  if threshold && jsLt newMove oldMove then nextMove cfg r acc
  else if threshold && jsLt oldMove newMove then prevMove cfg r acc
  else acc

/-- Line 156. -/
def resetMoveBuffer (acc : Eff) : Eff := setMoveBuffer [] acc

/-- Lines 158-161. -/
def startDragging (acc : Eff) : Eff := fire .onDragStart (setIsDragging true acc)

/-- Lines 163-166. -/
def stopDragging (acc : Eff) : Eff := fire .onDragEnd (setIsDragging false acc)

/-! ## Mode control (lines 101, 168-179) -/

/-- Line 101. -/
def _draggable (cfg : Config) (r : State) : Bool := !r.isRecording && cfg.draggable

/-- Lines 168-174. -/
def toggleAutoplay (state : Bool) (acc : Eff) : Eff :=
  let acc := setIsAutoPlayRunning state acc
  if state then fire .onAutoplayStart acc else fire .onAutoplayStop acc

/-- Lines 176-179. -/
def toggleRecording (r : State) (state : Bool) (acc : Eff) : Eff :=
  let acc := setIsRecording state acc
  if state then fire (.onRecordStart r.pins) acc else fire (.onRecordStop r.pins) acc

/-! ## Number formatting used by the pin store (lines 287-288)

The expression `(clientX / viewerWidth).toFixed(6)` divides two integer-valued
numbers in IEEE-754 double precision and prints the resulting double with six
decimals. Both steps are modelled on exact integers: a double is kept as a fraction
whose denominator is a power of two. -/

/-- The number of binary digits of `n`, by repeated halving; `fuel` bounds the
number of halvings. -/
def bitLenAux : Nat → Nat → Nat
  | 0, _ => 0
  | fuel + 1, n => if n = 0 then 0 else bitLenAux fuel (n / 2) + 1

/-- The number of binary digits of `n` (`0` for `0`). -/
def bitLen (n : Nat) : Nat := bitLenAux n n

/-- The integer nearest to `p / q`, the even one of the two at a tie: the rounding
mode of double arithmetic. -/
def roundHalfEven (p q : Nat) : Nat :=
  let f := p / q
  let r := p % q
  if 2 * r < q then f else if q < 2 * r then f + 1 else if f % 2 = 0 then f else f + 1

/-- The power of two by which `a / b` is multiplied to bring it to `2^t` or just
above, given the binary lengths of `a` and `b`. -/
def scaleUp (t a b : Nat) : Nat := t + bitLen b - bitLen a

/-- The power of two by which `a / b` is divided to bring it to `2^t` or just
above; at most one of `scaleUp` and `scaleDown` is not zero. -/
def scaleDown (t a b : Nat) : Nat := bitLen a - (t + bitLen b)

/-- The level, `52` or `53`, at which scaling puts `a / b` in `[2^52, 2^53)`, the
range of a 53-bit significand. -/
def divLevel (a b : Nat) : Nat :=
  if 2 ^ 52 * (b * 2 ^ scaleDown 52 a b) ≤ a * 2 ^ scaleUp 52 a b then 52 else 53

/-- The double `a / b` of the division at line 287, for a non-negative `a` and a
positive `b`, as a fraction `(numerator, denominator)` with a power of two for
denominator: the quotient is scaled into `[2^52, 2^53)`, rounded to the nearest
integer (ties to even) and scaled back. The operands are taken to be integers
that a double holds exactly (below `2^53`, as every pixel count is); the limits of
the exponent range are then out of reach and are not modelled. -/
def divDouble (a b : Nat) : Nat × Nat :=
  if a = 0 then (0, 1)
  else
    let t := divLevel a b
    (roundHalfEven (a * 2 ^ scaleUp t a b) (b * 2 ^ scaleDown t a b) * 2 ^ scaleDown t a b,
     2 ^ scaleUp t a b)

/-- The integer `n` chosen by `toFixed(6)` for the non-negative quotient `a / b`
(`b` positive): the one for which `n / 10^6` is closest to `a / b`, the larger
one when two are equally close. -/
def fixed6Digits (a b : Nat) : Nat := (2 * a * 10 ^ 6 + b) / (2 * b)

/-- The integer `n` chosen by `toFixed(6)` for the double `a / b`. -/
def fixed6Of (a b : Nat) : Nat := fixed6Digits (divDouble a b).1 (divDouble a b).2

/-- The six decimal digits of `n mod 10^6`, most significant first. -/
def sixDigits (n : Nat) : List Char :=
  [5, 4, 3, 2, 1, 0].map (fun i => Nat.digitChar (n / 10 ^ i % 10))

/-- The number a list of decimal digits denotes. -/
def digitsValue (cs : List Char) : Nat :=
  cs.foldl (fun acc c => 10 * acc + (c.toNat - 48)) 0

/-- The text `toFixed(6)` builds from `n` (the digits of `n`, padded on the left
with zeros to seven at least, with a point before the last six): the decimal
numeral of `n / 10^6`, a point, and the six digits of `n mod 10^6`. -/
def fixed6Render (n : Nat) : String :=
  toString (n / 10 ^ 6) ++ "." ++ String.mk (sixDigits n)

/-- The expression `(a / b).toFixed(6)` for integers `a` and `b`: the quotient is
rounded to a double (`divDouble`) and the double is printed with six decimals
(the exponential notation of values from `10^21` on is out of reach for operands
below `2^53` and is not modelled). Division by zero gives `NaN` or an infinity,
which `toFixed` prints by name; a negative quotient is printed as a minus sign
followed by the text of its absolute value. -/
def toFixed6 (a b : Int) : String :=
  if b = 0 then
    if a = 0 then "NaN" else if 0 < a then "Infinity" else "-Infinity"
  else
    let body := fixed6Render (fixed6Of a.natAbs b.natAbs)
    if (a < 0 ∧ 0 < b) ∨ (0 < a ∧ b < 0) then "-" ++ body else body

/-! ## Handlers (lines 181-306) -/

/-- Lines 182-192. -/
def imageViewerMouseDownHandler (cfg : Config) (v : Viewer) (r : State) (e : GestureEvt)
    (acc : Eff) : Eff :=
  let acc := if _draggable cfg r then rotateViewerImage cfg v r e (startDragging acc) else acc
  if r.isAutoPlayRunning && cfg.stopAutoplayOnClick then toggleAutoplay false acc else acc

/-- Lines 194-200. -/
def imageViewerMouseUpHandler (cfg : Config) (r : State) (acc : Eff) : Eff :=
  if _draggable cfg r then resetMoveBuffer (stopDragging acc) else acc

/-- Lines 202-206. -/
def imageViewerMouseMoveHandler (cfg : Config) (v : Viewer) (r : State) (e : GestureEvt)
    (acc : Eff) : Eff :=
  if _draggable cfg r && r.isDragging then rotateViewerImage cfg v r e acc else acc

/-- Lines 208-217. -/
def imageViewerMouseLeaveHandler (cfg : Config) (r : State) (acc : Eff) : Eff :=
  let acc := if _draggable cfg r then resetMoveBuffer acc else acc
  let acc := if !r.isAutoPlayRunning && cfg.resumeAutoplayOnMouseLeave then toggleAutoplay true acc
    else acc
  if cfg.mouseleaveDetect then resetMoveBuffer (stopDragging acc) else acc

/-- Lines 219-223. -/
def imageViewerMouseEnterHandler (cfg : Config) (r : State) (acc : Eff) : Eff :=
  if r.isAutoPlayRunning && cfg.stopAutoplayOnMouseEnter then toggleAutoplay false acc else acc

/-- Lines 225-233; `e.deltaY / 120 > 0` holds exactly when `deltaY` is positive. -/
def imageViewerWheelHandler (cfg : Config) (r : State) (deltaY : Int) (acc : Eff) : Eff :=
  if cfg.mousewheel then
    if deltaY > 0 then nextMove cfg r acc else prevMove cfg r acc
  else acc

/-- Lines 235-255. -/
def imageViewerTouchStartHandler (cfg : Config) (v : Viewer) (r : State) (e : GestureEvt)
    (acc : Eff) : Eff :=
  let acc := if cfg.touch then rotateViewerImage cfg v r e (startDragging acc) else acc
  if r.isAutoPlayRunning && cfg.stopAutoplayOnClick then toggleAutoplay false acc else acc

/-- Lines 257-265. -/
def imageViewerTouchMoveHandler (cfg : Config) (v : Viewer) (r : State) (e : GestureEvt)
    (acc : Eff) : Eff :=
  if cfg.touch then rotateViewerImage cfg v r e acc else acc

/-- Lines 267-279. -/
def imageViewerTouchEndHandler (cfg : Config) (r : State) (acc : Eff) : Eff :=
  let acc := if cfg.touch then resetMoveBuffer (stopDragging acc) else acc
  if !r.isAutoPlayRunning && cfg.resumeAutoplayOnMouseLeave then toggleAutoplay true acc else acc

/-- The `pin` built at lines 283-289; `uid` is the value of `TridiUtils.uid()`. -/
def newPin (v : Viewer) (r : State) (clientX clientY : Int) (uid : String) : Pin :=
  { id := uid
    frameId := r.currentImageIndex
    x := toFixed6 clientX v.clientWidth
    y := toFixed6 clientY v.clientHeight }

/-- Lines 281-293. -/
def imageViewerClickHandler (v : Viewer) (r : State) (clientX clientY : Int) (uid : String)
    (acc : Eff) : Eff :=
  if r.isRecording then setPins (r.pins ++ [newPin v r clientX clientY uid]) acc else acc

/-- Lines 295-300. -/
def pinDoubleClickHandler (r : State) (pin : Pin) (acc : Eff) : Eff :=
  if r.isRecording then setPins (r.pins.filter (fun item => item.id != pin.id)) acc else acc

/-- Lines 302-306. -/
def pinClickHandler (r : State) (pin : Pin) (acc : Eff) : Eff :=
  if !r.isRecording then fire (.onPinClick pin) acc else acc

/-- Lines 336-340: the effect run after mounting. -/
def autoplayEffect (cfg : Config) (acc : Eff) : Eff :=
  if cfg.autoplay then toggleAutoplay cfg.autoplay acc else acc

/-- Modelled from the spec: the hook `useInterval` (`./hooks/useInterval`, called at
lines 342-347) is not among the sources. The autoplay scheduler, when enabled,
invokes `nextMove` at a fixed period; with the delay `null` (autoplay not running)
no tick is scheduled. -/
def autoplayTick (cfg : Config) (r : State) (acc : Eff) : Eff :=
  if r.isAutoPlayRunning then nextMove cfg r acc else acc

/-! ## The component as a transition system -/

/-- What the host environment can deliver to the component: the DOM events bound
at lines 310-321 and 400-405, the two pin callbacks handed to `Pins` (lines 424-425),
the imperative handle (lines 349-354, also what the control bar calls) and the
timer of the autoplay scheduler. -/
inductive Event where
  | mouseDown (clientX : Int)
  | mouseUp
  | mouseMove (clientX : Int)
  | mouseLeave
  | mouseEnter
  | click (clientX clientY : Int) (uid : String)
  | touchStart (clientX : Rat)
  | touchMove (clientX : Rat)
  | touchEnd
  | wheel (deltaY : Int)
  | pinClick (pin : Pin)
  | pinDoubleClick (pin : Pin)
  | next
  | prev
  | toggleAutoplay (state : Bool)
  | toggleRecording (state : Bool)
  | autoplayTick
  deriving DecidableEq, Repr

/-- One event handled in the render whose state is `s`: the next state and the
notifications fired, in order. -/
def step (cfg : Config) (v : Viewer) (s : State) : Event → Eff
  | .mouseDown x => imageViewerMouseDownHandler cfg v s (.mouse x) (s, [])
  | .mouseUp => imageViewerMouseUpHandler cfg s (s, [])
  | .mouseMove x => imageViewerMouseMoveHandler cfg v s (.mouse x) (s, [])
  | .mouseLeave => imageViewerMouseLeaveHandler cfg s (s, [])
  | .mouseEnter => imageViewerMouseEnterHandler cfg s (s, [])
  | .click x y uid => imageViewerClickHandler v s x y uid (s, [])
  | .touchStart x => imageViewerTouchStartHandler cfg v s (.touch x) (s, [])
  | .touchMove x => imageViewerTouchMoveHandler cfg v s (.touch x) (s, [])
  | .touchEnd => imageViewerTouchEndHandler cfg s (s, [])
  | .wheel d => imageViewerWheelHandler cfg s d (s, [])
  | .pinClick p => pinClickHandler s p (s, [])
  | .pinDoubleClick p => pinDoubleClickHandler s p (s, [])
  | .next => nextMove cfg s (s, [])
  | .prev => prevMove cfg s (s, [])
  | .toggleAutoplay b => toggleAutoplay b (s, [])
  | .toggleRecording b => toggleRecording s b (s, [])
  | .autoplayTick => autoplayTick cfg s (s, [])

/-- The state after a sequence of events, each handled in the render that
follows the previous one. -/
def run (cfg : Config) (v : Viewer) (s : State) : List Event → State
  | [] => s
  | ev :: evs => run cfg v (step cfg v s ev).1 evs

/-- The state of the first render after mounting: the initial cells, then the
autoplay effect. -/
def mounted (cfg : Config) : State := (autoplayEffect cfg (initialState cfg, [])).1

/-- The states the component can be in: those reached from the mounted state
by some sequence of events. -/
def Reachable (cfg : Config) (v : Viewer) (s : State) : Prop :=
  ∃ evs : List Event, run cfg v (mounted cfg) evs = s

/-- A gesture tick has been emitted: `nextMove` or `prevMove` was called, each of
which announces itself first (lines 123 and 128). -/
def Ticked (t : List Notif) : Prop := Notif.onNextMove ∈ t ∨ Notif.onPrevMove ∈ t

instance : DecidablePred Ticked := fun t => by unfold Ticked; infer_instance

/-- The frame index lies in `[0, frameCount)`. -/
def ValidIndex (cfg : Config) (s : State) : Prop :=
  0 ≤ s.currentImageIndex ∧ s.currentImageIndex < cfg.count

instance (cfg : Config) (s : State) : Decidable (ValidIndex cfg s) := by
  unfold ValidIndex; infer_instance

/-- The state of a viewer showing frame `i`, with nothing else going on. -/
def atFrame (i : Int) : State :=
  { moveBuffer := []
    currentImageIndex := i
    isDragging := false
    isAutoPlayRunning := false
    isRecording := false
    pins := [] }

/-- One call of `nextFrame` in the render of `s`, and the render that follows. -/
def afterNextFrame (cfg : Config) (s : State) : State := (nextFrame cfg s (s, [])).1

/-- One call of `prevFrame` in the render of `s`, and the render that follows. -/
def afterPrevFrame (cfg : Config) (s : State) : State := (prevFrame cfg s (s, [])).1

/-- The state and the notifications after a sequence of events, each handled in
the render that follows the previous one; the notifications are in firing order. -/
def runTrace (cfg : Config) (v : Viewer) (s : State) : List Event → Eff
  | [] => (s, [])
  | ev :: evs =>
    ((runTrace cfg v (step cfg v s ev).1 evs).1,
     (step cfg v s ev).2 ++ (runTrace cfg v (step cfg v s ev).1 evs).2)

/-- The event edits the pin store: a viewer click or a pin double-click. -/
def Event.isPinEdit : Event → Bool
  | .click _ _ _ => true
  | .pinDoubleClick _ => true
  | _ => false

/-- One autoplay timer tick in the render of `s`, and the render that follows. -/
def afterAutoplayTick (cfg : Config) (v : Viewer) (s : State) : State :=
  (step cfg v s .autoplayTick).1

/-- What a handler did to autoplay: the flag it leaves, and how many times it fired
`onAutoplayStart` and `onAutoplayStop`. -/
def autoplayOutcome (out : Eff) : Bool × Nat × Nat :=
  (out.1.isAutoPlayRunning, out.2.count .onAutoplayStart, out.2.count .onAutoplayStop)

/-! ## Configuration validation (lines 16-32) -/

/-- The value of the `images` prop: absent, a string (`'numbered'` is the numbering
convention) or an explicit list. -/
inductive ImagesProp where
  | undefined
  | str (s : String)
  | array (items : List String)
  deriving DecidableEq, Repr

/-- Truthiness of an optional string prop: `undefined` and the empty string are falsy. -/
def truthy : Option String → Bool
  | none => false
  | some s => s != ""

/-- Truthiness of the `images` prop: an array is truthy, even when empty. -/
def ImagesProp.truthy : ImagesProp → Bool
  | .undefined => false
  | .str s => s != ""
  | .array _ => true

/-- Lines 17-32 (`TridiUtils.isValidProps`), the logging apart. -/
def isValidProps (images : ImagesProp) (format location : Option String) : Bool :=
  let isValid := true
  let isValid := if !images.truthy && !truthy format then false else isValid
  let isValid := if images == .str "numbered" && !truthy location then false else isValid
  isValid

/-! ## States and inputs used in the examples -/

/-- A state in the middle of a mouse drag: one sample, `p`, is in the move buffer. -/
def dragAt (p : Int) : State :=
  { moveBuffer := [p]
    currentImageIndex := 0
    isDragging := true
    isAutoPlayRunning := false
    isRecording := false
    pins := [] }

/-- A viewer whose left edge is at the origin, 400 by 400 pixels. -/
def viewer0 : Viewer := { offsetLeft := 0, clientWidth := 400, clientHeight := 400 }

/-- The default configuration of a viewer of 36 frames. -/
def config36 : Config := { count := 36 }

/-- A viewer in recording mode, showing frame `i`, with the pins `ps`. -/
def recordingAt (i : Int) (ps : List Pin) : State :=
  { moveBuffer := []
    currentImageIndex := i
    isDragging := false
    isAutoPlayRunning := false
    isRecording := true
    pins := ps }

/-- The first pin of the example of C9. -/
def pinA : Pin := { id := "k1", frameId := 3, x := "0.250000", y := "0.750000" }

/-- The second pin of the example of C9. -/
def pinB : Pin := { id := "k2", frameId := 3, x := "0.500000", y := "0.250000" }

/-! ## Frame sequencer: arithmetic -/

theorem nextIndex_eq_mod (cfg : Config) (r : State) (hv : ValidIndex cfg r) :
    nextIndex cfg r = (r.currentImageIndex + 1) % cfg.count := by
  obtain ⟨h0, h1⟩ := hv
  unfold nextIndex
  split_ifs with h
  · have : r.currentImageIndex + 1 = cfg.count := by omega
    rw [this, Int.emod_self]
  · rw [Int.emod_eq_of_lt (by omega) (by omega)]

theorem prevIndex_eq_mod (cfg : Config) (r : State) (hv : ValidIndex cfg r) :
    prevIndex cfg r = (r.currentImageIndex - 1 + cfg.count) % cfg.count := by
  obtain ⟨h0, h1⟩ := hv
  unfold prevIndex
  split_ifs with h
  · have : r.currentImageIndex = 0 := by omega
    rw [this, Int.emod_eq_of_lt (by omega) (by omega)]
    omega
  · rw [Int.add_emod_self, Int.emod_eq_of_lt (by omega) (by omega)]

theorem mod_valid (n a : Int) (hn : 1 ≤ n) : 0 ≤ a % n ∧ a % n < n :=
  ⟨Int.emod_nonneg a (by omega), Int.emod_lt_of_pos a (by omega)⟩

/-- C1. For `frameCount = n ≥ 1` and an index `i` in `[0, n)`, `nextFrame` sets the
index to `(i + 1) mod n` and `prevFrame` sets it to `(i - 1 + n) mod n`; both new
indices are again in `[0, n)`, the last frame wraps to `0` and frame `0` wraps to
`n - 1`; each fires its frame notification and then `onFrameChange` with exactly
the new index, and touches no other cell. -/
theorem nextFrame_prevFrame_mod (cfg : Config) (r : State) (acc : Eff)
    (hn : 1 ≤ cfg.count) (hv : ValidIndex cfg r) :
    nextFrame cfg r acc
        = ({ acc.1 with currentImageIndex := (r.currentImageIndex + 1) % cfg.count },
           acc.2 ++ [.onNextFrame, .onFrameChange ((r.currentImageIndex + 1) % cfg.count)])
    ∧ prevFrame cfg r acc
        = ({ acc.1 with currentImageIndex := (r.currentImageIndex - 1 + cfg.count) % cfg.count },
           acc.2 ++ [.onPrevFrame,
             .onFrameChange ((r.currentImageIndex - 1 + cfg.count) % cfg.count)])
    ∧ (0 ≤ (r.currentImageIndex + 1) % cfg.count
        ∧ (r.currentImageIndex + 1) % cfg.count < cfg.count)
    ∧ (0 ≤ (r.currentImageIndex - 1 + cfg.count) % cfg.count
        ∧ (r.currentImageIndex - 1 + cfg.count) % cfg.count < cfg.count)
    ∧ (r.currentImageIndex = cfg.count - 1 → (nextFrame cfg r acc).1.currentImageIndex = 0)
    ∧ (r.currentImageIndex = 0 → (prevFrame cfg r acc).1.currentImageIndex = cfg.count - 1) := by
  refine ⟨?_, ?_, mod_valid _ _ hn, mod_valid _ _ hn, ?_, ?_⟩
  · simp [nextFrame, fire, setCurrentImageIndex, nextIndex_eq_mod cfg r hv]
  · simp [prevFrame, fire, setCurrentImageIndex, prevIndex_eq_mod cfg r hv]
  · intro h
    simp [nextFrame, fire, setCurrentImageIndex, nextIndex, h]
  · intro h
    simp [prevFrame, fire, setCurrentImageIndex, prevIndex, h]

/-- C1 at a concrete input: five frames, the last frame and frame `0`. -/
theorem nextFrame_prevFrame_mod_witness :
    nextFrame { count := 5 } (atFrame 4) (atFrame 4, [])
      = (atFrame 0, [.onNextFrame, .onFrameChange 0])
    ∧ prevFrame { count := 5 } (atFrame 0) (atFrame 0, [])
      = (atFrame 4, [.onPrevFrame, .onFrameChange 4]) :=
  ⟨(nextFrame_prevFrame_mod { count := 5 } (atFrame 4) (atFrame 4, [])
      (by decide) (by decide)).1,
   (nextFrame_prevFrame_mod { count := 5 } (atFrame 0) (atFrame 0, [])
      (by decide) (by decide)).2.1⟩

/-! ## Frame sequencer: algebra -/

theorem afterNextFrame_eq (cfg : Config) (s : State) :
    afterNextFrame cfg s = { s with currentImageIndex := nextIndex cfg s } := rfl

theorem afterPrevFrame_eq (cfg : Config) (s : State) :
    afterPrevFrame cfg s = { s with currentImageIndex := prevIndex cfg s } := rfl

/-- After `k` calls of `nextFrame` from a valid index `i`, the index is `(i + k) mod n`
and no other cell has changed. -/
theorem iterate_afterNextFrame (cfg : Config) (s : State) (hn : 1 ≤ cfg.count)
    (hv : ValidIndex cfg s) (k : Nat) :
    (afterNextFrame cfg)^[k] s
      = { s with currentImageIndex := (s.currentImageIndex + k) % cfg.count } := by
  induction k with
  | zero =>
    obtain ⟨h0, h1⟩ := hv
    simp [Int.emod_eq_of_lt h0 h1]
  | succ k ih =>
    rw [Function.iterate_succ_apply', ih, afterNextFrame_eq]
    have hv2 : ValidIndex cfg
        { s with currentImageIndex := (s.currentImageIndex + k) % cfg.count } :=
      mod_valid _ _ hn
    rw [nextIndex_eq_mod _ _ hv2]
    simp only [Int.emod_add_emod, Nat.cast_succ, Int.add_assoc]

/-- C2. Wrap-around closure: for `frameCount = n ≥ 1` and a starting index in `[0, n)`,
calling `nextFrame` exactly `n` times in succession (each call in the render that
follows the previous one) returns the index, and the whole state, to where it started. -/
theorem nextFrame_wraparound_closure (cfg : Config) (s : State) (hn : 1 ≤ cfg.count)
    (hv : ValidIndex cfg s) :
    ((afterNextFrame cfg)^[cfg.count.toNat] s).currentImageIndex = s.currentImageIndex
    ∧ (afterNextFrame cfg)^[cfg.count.toNat] s = s := by
  have hk : ((cfg.count.toNat : Nat) : Int) = cfg.count := Int.toNat_of_nonneg (by omega)
  have h := iterate_afterNextFrame cfg s hn hv cfg.count.toNat
  rw [hk, Int.add_emod_self, Int.emod_eq_of_lt hv.1 hv.2] at h
  rw [h]
  exact ⟨rfl, rfl⟩

/-- C2 at a concrete input: five frames, starting at frame 3. -/
theorem nextFrame_wraparound_closure_witness :
    ((afterNextFrame { count := 5 })^[5] (atFrame 3)).currentImageIndex = 3 :=
  (nextFrame_wraparound_closure { count := 5 } (atFrame 3) (by decide) (by decide)).1

/-- C3. The function `prevFrame` undoes `nextFrame`: for an index `i` in `[0, n)`,
`n` the frame count (so `n ≥ 1`), the index after `nextFrame` followed by `prevFrame`
is `i` again (and the state as a whole is the one before). -/
theorem prevFrame_nextFrame_inverse (cfg : Config) (s : State) (hv : ValidIndex cfg s) :
    (afterPrevFrame cfg (afterNextFrame cfg s)).currentImageIndex = s.currentImageIndex
    ∧ afterPrevFrame cfg (afterNextFrame cfg s) = s := by
  obtain ⟨h0, h1⟩ := hv
  have key : prevIndex cfg { s with currentImageIndex := nextIndex cfg s }
      = s.currentImageIndex := by
    unfold prevIndex nextIndex
    by_cases h : s.currentImageIndex ≥ cfg.count - 1
    · simp only [h, if_true, le_refl]
      omega
    · simp only [h, if_false]
      have : ¬ (s.currentImageIndex + 1 ≤ 0) := by omega
      simp only [this, if_false]
      omega
  rw [afterNextFrame_eq, afterPrevFrame_eq, key]
  exact ⟨rfl, rfl⟩

/-- C3 at a concrete input: five frames, the last frame (where `nextFrame` wraps). -/
theorem prevFrame_nextFrame_inverse_witness :
    (afterPrevFrame { count := 5 } (afterNextFrame { count := 5 } (atFrame 4))).currentImageIndex
      = 4 :=
  (prevFrame_nextFrame_inverse { count := 5 } (atFrame 4) (by decide)).1

/-- C4. Inverse mode swaps directions: from the same state, `nextMove` with
`inverse = true` leaves the same frame index (indeed the same state) as `prevMove`
with `inverse = false`, and `prevMove` with `inverse = true` the same as `nextMove`
with `inverse = false`. This holds for every frame count and index. -/
theorem inverse_swaps_moves (cfg : Config) (s : State) :
    ((nextMove { cfg with inverse := true } s (s, [])).1.currentImageIndex
        = (prevMove { cfg with inverse := false } s (s, [])).1.currentImageIndex
      ∧ (nextMove { cfg with inverse := true } s (s, [])).1
        = (prevMove { cfg with inverse := false } s (s, [])).1)
    ∧ ((prevMove { cfg with inverse := true } s (s, [])).1.currentImageIndex
        = (nextMove { cfg with inverse := false } s (s, [])).1.currentImageIndex
      ∧ (prevMove { cfg with inverse := true } s (s, [])).1
        = (nextMove { cfg with inverse := false } s (s, [])).1) :=
  ⟨⟨rfl, rfl⟩, ⟨rfl, rfl⟩⟩

/-! ## Gesture interpreter: when a tick is emitted -/

theorem notRem_eq_true_iff (coord interval : Int) :
    notRem coord interval = true ↔ interval = 0 ∨ interval ∣ coord := by
  unfold notRem
  by_cases h : interval = 0
  · simp [h]
  · simp [h, Int.dvd_iff_tmod_eq_zero]

theorem notRem_of_pos (coord interval : Int) (h : 0 < interval) :
    notRem coord interval = true ↔ coord % interval = 0 := by
  rw [notRem_eq_true_iff, ← Int.dvd_iff_emod_eq_zero]
  constructor
  · rintro (h0 | hd)
    · omega
    · exact hd
  · exact Or.inr

theorem pushMove_nil (c : Int) : pushMove [] c = [c] := rfl

theorem pushMove_one (a c : Int) : pushMove [a] c = [a, c] := rfl

theorem pushMove_two (a b c : Int) (t : List Int) : pushMove (a :: b :: t) c = [b, c] := by
  simp [pushMove]

/-- The pushed buffer has one entry when the buffer was empty, otherwise it is the
last retained sample followed by the new coordinate. -/
theorem pushMove_cases (b : List Int) (c : Int) :
    (b = [] ∧ pushMove b c = [c]) ∨ (∃ p, b ≠ [] ∧ pushMove b c = [p, c]) := by
  match b with
  | [] => exact Or.inl ⟨rfl, rfl⟩
  | [a] => exact Or.inr ⟨a, by simp, rfl⟩
  | a :: a2 :: t => exact Or.inr ⟨a2, by simp, pushMove_two a a2 c t⟩

theorem pushMove_getLast (b : List Int) (c p : Int) (h : b.getLast? = some p)
    (hlen : b.length ≤ 2) : pushMove b c = [p, c] := by
  match b, h, hlen with
  | [a], h, _ => simp at h; subst h; rfl
  | [a, a2], h, _ => simp at h; subst h; exact pushMove_two a a2 c []
  | _ :: _ :: _ :: _, _, hlen => simp at hlen

theorem nextMove_trace (cfg : Config) (r a : State) :
    (nextMove cfg r (a, [])).2
      = [.onNextMove, if cfg.inverse then .onPrevFrame else .onNextFrame,
         .onFrameChange (if cfg.inverse then prevIndex cfg r else nextIndex cfg r)] := by
  cases h : cfg.inverse <;> simp [nextMove, nextFrame, prevFrame, fire, setCurrentImageIndex, h]

theorem prevMove_trace (cfg : Config) (r a : State) :
    (prevMove cfg r (a, [])).2
      = [.onPrevMove, if cfg.inverse then .onNextFrame else .onPrevFrame,
         .onFrameChange (if cfg.inverse then nextIndex cfg r else prevIndex cfg r)] := by
  cases h : cfg.inverse <;> simp [prevMove, nextFrame, prevFrame, fire, setCurrentImageIndex, h]

theorem ticked_nextMove (cfg : Config) (r a : State) : Ticked (nextMove cfg r (a, [])).2 := by
  rw [nextMove_trace]; exact Or.inl (List.mem_cons_self _ _)

theorem ticked_prevMove (cfg : Config) (r a : State) : Ticked (prevMove cfg r (a, [])).2 := by
  rw [prevMove_trace]; exact Or.inr (List.mem_cons_self _ _)

/-- What `rotateViewerImage` does once the pushed buffer is known to be `[old, new]`. -/
theorem rotateViewerImage_two (cfg : Config) (v : Viewer) (r a : State) (e : GestureEvt)
    (old new : Int) (hbuf : pushMove r.moveBuffer (gestureCoord v e) = [old, new]) :
    rotateViewerImage cfg v r e (a, [])
      = if notRem (gestureCoord v e) (gestureInterval cfg e) = true ∧ new < old then
          nextMove cfg r ({ a with moveBuffer := [old, new] }, [])
        else if notRem (gestureCoord v e) (gestureInterval cfg e) = true ∧ old < new then
          prevMove cfg r ({ a with moveBuffer := [old, new] }, [])
        else ({ a with moveBuffer := [old, new] }, []) := by
  simp only [rotateViewerImage, hbuf, setMoveBuffer, jsLt, List.getElem?_cons_zero,
    List.getElem?_cons_succ, Bool.and_eq_true, decide_eq_true_eq]

/-- What `rotateViewerImage` does when the buffer was empty: the sample is stored,
nothing else happens. -/
theorem rotateViewerImage_first (cfg : Config) (v : Viewer) (r a : State) (e : GestureEvt)
    (hbuf : r.moveBuffer = []) :
    rotateViewerImage cfg v r e (a, [])
      = ({ a with moveBuffer := [gestureCoord v e] }, []) := by
  simp [rotateViewerImage, hbuf, pushMove_nil, setMoveBuffer, jsLt]

/-- A tick is emitted exactly when the pushed buffer is `[old, new]` with
`old ≠ new` and the test of line 144 succeeds. -/
theorem ticked_rotateViewerImage_iff (cfg : Config) (v : Viewer) (r a : State)
    (e : GestureEvt) :
    Ticked (rotateViewerImage cfg v r e (a, [])).2
      ↔ ∃ old, pushMove r.moveBuffer (gestureCoord v e) = [old, gestureCoord v e]
          ∧ old ≠ gestureCoord v e
          ∧ notRem (gestureCoord v e) (gestureInterval cfg e) = true := by
  rcases pushMove_cases r.moveBuffer (gestureCoord v e) with ⟨hnil, hp⟩ | ⟨p, _, hp⟩
  · rw [rotateViewerImage_first cfg v r a e hnil, hp]
    simp [Ticked]
  · rw [rotateViewerImage_two cfg v r a e p _ hp, hp]
    constructor
    · intro ht
      refine ⟨p, rfl, ?_, ?_⟩
      · rintro rfl
        simp [Ticked] at ht
      · by_contra hn
        simp [hn, Ticked] at ht
    · rintro ⟨old, hold, hne, hrem⟩
      have hop : old = p := by
        have := congrArg List.head? hold
        simpa using this.symm
      subst hop
      rcases lt_or_gt_of_ne hne with hlt | hgt
      · have : ¬ gestureCoord v e < old := by omega
        simp only [hrem, this, hlt, and_false, and_true, if_false, if_true]
        exact ticked_prevMove _ _ _
      · simp only [hrem, hgt, and_true, if_true]
        exact ticked_nextMove _ _ _

/-- C5. The function `rotateViewerImage` emits a tick (calls `nextMove` or `prevMove`)
only if, once `coord = eventX - offsetLeft` has been pushed, the move buffer holds two
samples and `coord mod interval = 0`, the interval being `dragInterval` for a mouse
event and `touchDragInterval` for a touch event (intervals positive). Conversely,
with a previous sample buffered and different from the new one, a mouse event whose
coordinate is a multiple of `dragInterval` does tick; with `dragInterval = 1` that is
every coordinate. -/
theorem rotate_ticks_only_on_multiples (cfg : Config) (v : Viewer) (r a : State) :
    (∀ x : Int, 0 < cfg.dragInterval →
        Ticked (rotateViewerImage cfg v r (.mouse x) (a, [])).2 →
        (pushMove r.moveBuffer (x - v.offsetLeft)).length = 2
          ∧ (x - v.offsetLeft) % cfg.dragInterval = 0)
    ∧ (∀ x : Rat, 0 < cfg.touchDragInterval →
        Ticked (rotateViewerImage cfg v r (.touch x) (a, [])).2 →
        (pushMove r.moveBuffer (mathRound x - v.offsetLeft)).length = 2
          ∧ (mathRound x - v.offsetLeft) % cfg.touchDragInterval = 0)
    ∧ (∀ x p : Int, 0 < cfg.dragInterval → r.moveBuffer = [p] → p ≠ x - v.offsetLeft →
        (x - v.offsetLeft) % cfg.dragInterval = 0 →
        Ticked (rotateViewerImage cfg v r (.mouse x) (a, [])).2)
    ∧ (∀ x p : Int, cfg.dragInterval = 1 → r.moveBuffer = [p] → p ≠ x - v.offsetLeft →
        Ticked (rotateViewerImage cfg v r (.mouse x) (a, [])).2) := by
  refine ⟨?_, ?_, ?_, ?_⟩
  · intro x hpos ht
    obtain ⟨old, hbuf, _, hrem⟩ := (ticked_rotateViewerImage_iff cfg v r a (.mouse x)).1 ht
    exact ⟨by simpa [gestureCoord, gestureEventX] using congrArg List.length hbuf,
      (notRem_of_pos _ _ hpos).1 hrem⟩
  · intro x hpos ht
    obtain ⟨old, hbuf, _, hrem⟩ := (ticked_rotateViewerImage_iff cfg v r a (.touch x)).1 ht
    exact ⟨by simpa [gestureCoord, gestureEventX] using congrArg List.length hbuf,
      (notRem_of_pos _ _ hpos).1 hrem⟩
  · intro x p hpos hb hne hmod
    refine (ticked_rotateViewerImage_iff cfg v r a (.mouse x)).2 ⟨p, ?_, hne, ?_⟩
    · rw [hb]; rfl
    · exact (notRem_of_pos _ _ hpos).2 hmod
  · intro x p h1 hb hne
    refine (ticked_rotateViewerImage_iff cfg v r a (.mouse x)).2 ⟨p, ?_, hne, ?_⟩
    · rw [hb]; rfl
    · refine (notRem_of_pos _ _ (by simp only [gestureInterval]; omega)).2 ?_
      simp only [gestureInterval, h1]
      exact Int.emod_one _

/-- C5 at concrete inputs: a previous sample `7` is buffered; with `dragInterval = 5`
the coordinates 10 and 15 tick and 11, 12, 13, 14 do not; with `dragInterval = 1`
coordinate 11 ticks. -/
theorem rotate_ticks_only_on_multiples_witness :
    (Ticked (rotateViewerImage { count := 36, dragInterval := 5 } viewer0 (dragAt 7)
        (.mouse 10) (dragAt 7, [])).2
      ∧ (pushMove (dragAt 7).moveBuffer (10 - viewer0.offsetLeft)).length = 2
      ∧ (10 - viewer0.offsetLeft) % 5 = 0)
    ∧ ¬ Ticked (rotateViewerImage { count := 36, dragInterval := 5 } viewer0 (dragAt 7)
        (.mouse 11) (dragAt 7, [])).2
    ∧ ¬ Ticked (rotateViewerImage { count := 36, dragInterval := 5 } viewer0 (dragAt 7)
        (.mouse 12) (dragAt 7, [])).2
    ∧ ¬ Ticked (rotateViewerImage { count := 36, dragInterval := 5 } viewer0 (dragAt 7)
        (.mouse 13) (dragAt 7, [])).2
    ∧ ¬ Ticked (rotateViewerImage { count := 36, dragInterval := 5 } viewer0 (dragAt 7)
        (.mouse 14) (dragAt 7, [])).2
    ∧ Ticked (rotateViewerImage { count := 36, dragInterval := 5 } viewer0 (dragAt 7)
        (.mouse 15) (dragAt 7, [])).2
    ∧ Ticked (rotateViewerImage { count := 36, dragInterval := 1 } viewer0 (dragAt 7)
        (.mouse 11) (dragAt 7, [])).2 :=
  ⟨⟨by decide,
      (rotate_ticks_only_on_multiples { count := 36, dragInterval := 5 } viewer0 (dragAt 7)
        (dragAt 7)).1 10 (by decide) (by decide)⟩,
    by decide, by decide, by decide, by decide, by decide,
    (rotate_ticks_only_on_multiples { count := 36, dragInterval := 1 } viewer0 (dragAt 7)
      (dragAt 7)).2.2.2 11 7 rfl rfl (by decide)⟩

/-- C6. Tick direction: when the pushed move buffer is `[old, new]` and the
coordinate is a multiple of the active interval, `rotateViewerImage` calls `nextMove`
exactly once and not `prevMove` if `new < old`, calls `prevMove` exactly once and not
`nextMove` if `new > old`, and calls neither, leaving the frame index (and every cell
but the buffer) unchanged and firing nothing, if the two samples are equal. -/
theorem rotate_tick_direction (cfg : Config) (v : Viewer) (r a : State) (e : GestureEvt)
    (old new : Int) (hbuf : pushMove r.moveBuffer (gestureCoord v e) = [old, new])
    (hmul : gestureInterval cfg e ∣ gestureCoord v e) :
    (new < old →
        rotateViewerImage cfg v r e (a, [])
          = nextMove cfg r ({ a with moveBuffer := [old, new] }, [])
        ∧ (rotateViewerImage cfg v r e (a, [])).2.count .onNextMove = 1
        ∧ Notif.onPrevMove ∉ (rotateViewerImage cfg v r e (a, [])).2)
    ∧ (old < new →
        rotateViewerImage cfg v r e (a, [])
          = prevMove cfg r ({ a with moveBuffer := [old, new] }, [])
        ∧ (rotateViewerImage cfg v r e (a, [])).2.count .onPrevMove = 1
        ∧ Notif.onNextMove ∉ (rotateViewerImage cfg v r e (a, [])).2)
    ∧ (new = old →
        rotateViewerImage cfg v r e (a, []) = ({ a with moveBuffer := [old, new] }, [])
        ∧ (rotateViewerImage cfg v r e (a, [])).1.currentImageIndex = a.currentImageIndex
        ∧ ¬ Ticked (rotateViewerImage cfg v r e (a, [])).2) := by
  have hrem : notRem (gestureCoord v e) (gestureInterval cfg e) = true :=
    (notRem_eq_true_iff _ _).2 (Or.inr hmul)
  rw [rotateViewerImage_two cfg v r a e old new hbuf]
  refine ⟨?_, ?_, ?_⟩
  · intro hlt
    simp only [hrem, hlt, and_self, if_true]
    refine ⟨trivial, ?_, ?_⟩
    · rw [nextMove_trace]; cases cfg.inverse <;> simp
    · rw [nextMove_trace]; cases cfg.inverse <;> simp
  · intro hlt
    have hn : ¬ new < old := by omega
    simp only [hrem, hlt, hn, and_false, and_self, if_false, if_true]
    refine ⟨trivial, ?_, ?_⟩
    · rw [prevMove_trace]; cases cfg.inverse <;> simp
    · rw [prevMove_trace]; cases cfg.inverse <;> simp
  · intro heq
    subst heq
    simp [Ticked]

/-- C6 at concrete inputs: previous sample 12 and `dragInterval = 5`; coordinate 10 is
to the left (a `nextMove`), coordinate 15 to the right (a `prevMove`). -/
theorem rotate_tick_direction_witness :
    rotateViewerImage { count := 36, dragInterval := 5 } viewer0 (dragAt 12) (.mouse 10)
        (dragAt 12, [])
      = nextMove { count := 36, dragInterval := 5 } (dragAt 12)
          ({ dragAt 12 with moveBuffer := [12, 10] }, [])
    ∧ rotateViewerImage { count := 36, dragInterval := 5 } viewer0 (dragAt 12) (.mouse 15)
        (dragAt 12, [])
      = prevMove { count := 36, dragInterval := 5 } (dragAt 12)
          ({ dragAt 12 with moveBuffer := [12, 15] }, []) :=
  ⟨((rotate_tick_direction { count := 36, dragInterval := 5 } viewer0 (dragAt 12) (dragAt 12)
      (.mouse 10) 12 10 (by decide) (by decide)).1 (by decide)).1,
   ((rotate_tick_direction { count := 36, dragInterval := 5 } viewer0 (dragAt 12) (dragAt 12)
      (.mouse 15) 12 15 (by decide) (by decide)).2.1 (by decide)).1⟩

/-! ## Dragging and recording -/

/-- C7, as stated, fails: after a mouse-down on a draggable viewer (a drag starts)
followed by `toggleRecording(true)` from the control surface, `isDragging` and
`isRecording` are both true; so not every reachable state keeps them apart. -/
theorem dragging_and_recording_both_true :
    (run config36 viewer0 (mounted config36)
        [.mouseDown 10, .toggleRecording true]).isDragging = true
    ∧ (run config36 viewer0 (mounted config36)
        [.mouseDown 10, .toggleRecording true]).isRecording = true
    ∧ ¬ (∀ (cfg : Config) (v : Viewer) (s : State), Reachable cfg v s →
          ¬ (s.isDragging = true ∧ s.isRecording = true)) := by
  refine ⟨by decide, by decide, fun h => ?_⟩
  exact h config36 viewer0 _ ⟨[.mouseDown 10, .toggleRecording true], rfl⟩
    ⟨by decide, by decide⟩

/-- C7, amended. While `isRecording` is true the mouse path is switched off by the
effective flag `_draggable`: a mouse-down starts no drag (it leaves every cell but
`isAutoPlayRunning` alone, fires neither `onDragStart` nor a tick, and can only stop
autoplay), and a mouse-move and a mouse-up change nothing and fire nothing. The two
flags are separate cells: `toggleRecording` never changes `isDragging`. -/
theorem recording_switches_off_mouse_drag (cfg : Config) (v : Viewer) (s : State)
    (hrec : s.isRecording = true) :
    (∀ x : Int, step cfg v s (.mouseDown x)
        = if s.isAutoPlayRunning && cfg.stopAutoplayOnClick
          then ({ s with isAutoPlayRunning := false }, [.onAutoplayStop]) else (s, []))
    ∧ (∀ x : Int, (step cfg v s (.mouseDown x)).1.isDragging = s.isDragging
        ∧ (step cfg v s (.mouseDown x)).1.moveBuffer = s.moveBuffer
        ∧ (step cfg v s (.mouseDown x)).1.currentImageIndex = s.currentImageIndex
        ∧ Notif.onDragStart ∉ (step cfg v s (.mouseDown x)).2
        ∧ ¬ Ticked (step cfg v s (.mouseDown x)).2)
    ∧ (∀ x : Int, step cfg v s (.mouseMove x) = (s, []))
    ∧ step cfg v s .mouseUp = (s, [])
    ∧ (∀ b : Bool, (step cfg v s (.toggleRecording b)).1.isDragging = s.isDragging) := by
  have hd : _draggable cfg s = false := by simp [_draggable, hrec]
  have hdown : ∀ x : Int, step cfg v s (.mouseDown x)
      = if s.isAutoPlayRunning && cfg.stopAutoplayOnClick
        then ({ s with isAutoPlayRunning := false }, [.onAutoplayStop]) else (s, []) := by
    intro x
    simp only [step, imageViewerMouseDownHandler, hd, Bool.false_eq_true, if_false]
    split_ifs <;> simp [toggleAutoplay, setIsAutoPlayRunning, fire]
  refine ⟨hdown, ?_, ?_, ?_, ?_⟩
  · intro x
    rw [hdown x]
    split_ifs <;> simp [Ticked]
  · intro x
    simp [step, imageViewerMouseMoveHandler, hd]
  · simp [step, imageViewerMouseUpHandler, hd]
  · intro b
    cases b <;> rfl

/-- C7 (amended) at a concrete input: recording is on at frame 3. -/
theorem recording_switches_off_mouse_drag_witness :
    step config36 viewer0 (recordingAt 3 []) (.mouseDown 10) = (recordingAt 3 [], [])
    ∧ step config36 viewer0 (recordingAt 3 []) (.mouseMove 12) = (recordingAt 3 [], []) :=
  ⟨(recording_switches_off_mouse_drag config36 viewer0 (recordingAt 3 []) rfl).1 10,
   (recording_switches_off_mouse_drag config36 viewer0 (recordingAt 3 []) rfl).2.2.1 12⟩

/-! ## Pin store -/

/-- The digits chosen by `toFixed(6)` are those of the integer nearest to
`a / b * 10^6`, the larger one at a tie. -/
theorem fixed6Digits_nearest (a b : Nat) (hb : 0 < b) :
    2 * b * fixed6Digits a b ≤ 2 * a * 10 ^ 6 + b
    ∧ 2 * a * 10 ^ 6 + b < 2 * b * (fixed6Digits a b + 1) := by
  unfold fixed6Digits
  have h2 : 0 < 2 * b := by omega
  exact ⟨Nat.mul_div_le _ _, Nat.lt_mul_div_succ _ h2⟩

/-! ### The double quotient and its six-decimal text -/

theorem digitChar_value (d : Nat) (h : d < 10) :
    (Nat.digitChar d).toNat - 48 = d ∧ (Nat.digitChar d).isDigit = true := by
  interval_cases d <;> decide

theorem sixDigits_spec (n : Nat) :
    (sixDigits n).length = 6 ∧ (∀ c ∈ sixDigits n, c.isDigit = true)
    ∧ digitsValue (sixDigits n) = n % 10 ^ 6 := by
  refine ⟨rfl, ?_, ?_⟩
  · intro c hc
    simp only [sixDigits, List.map_cons, List.map_nil, List.mem_cons, List.mem_singleton,
      List.not_mem_nil, or_false] at hc
    rcases hc with rfl | rfl | rfl | rfl | rfl | rfl <;>
      exact (digitChar_value _ (Nat.mod_lt _ (by norm_num))).2
  · have h5 := (digitChar_value (n / 10 ^ 5 % 10) (Nat.mod_lt _ (by norm_num))).1
    have h4 := (digitChar_value (n / 10 ^ 4 % 10) (Nat.mod_lt _ (by norm_num))).1
    have h3 := (digitChar_value (n / 10 ^ 3 % 10) (Nat.mod_lt _ (by norm_num))).1
    have h2 := (digitChar_value (n / 10 ^ 2 % 10) (Nat.mod_lt _ (by norm_num))).1
    have h1 := (digitChar_value (n / 10 ^ 1 % 10) (Nat.mod_lt _ (by norm_num))).1
    have h0 := (digitChar_value (n / 10 ^ 0 % 10) (Nat.mod_lt _ (by norm_num))).1
    simp only [sixDigits, digitsValue, List.map_cons, List.map_nil, List.foldl_cons,
      List.foldl_nil, h5, h4, h3, h2, h1, h0]
    norm_num
    omega

theorem bitLenAux_zero (fuel : Nat) : bitLenAux fuel 0 = 0 := by
  cases fuel <;> simp [bitLenAux]

theorem bitLenAux_spec (fuel : Nat) : ∀ n : Nat, n ≤ fuel →
    n < 2 ^ bitLenAux fuel n ∧ (n ≠ 0 → 1 ≤ bitLenAux fuel n ∧ 2 ^ (bitLenAux fuel n - 1) ≤ n) := by
  induction fuel with
  | zero =>
    intro n hn
    have : n = 0 := by omega
    subst this
    simp [bitLenAux]
  | succ fuel ih =>
    intro n hn
    by_cases h0 : n = 0
    · subst h0; simp [bitLenAux]
    · have hstep : bitLenAux (fuel + 1) n = bitLenAux fuel (n / 2) + 1 := by
        simp [bitLenAux, h0]
      obtain ⟨hlt, hge⟩ := ih (n / 2) (by omega)
      rw [hstep]
      refine ⟨?_, fun _ => ⟨by omega, ?_⟩⟩
      · rw [pow_succ]; omega
      · simp only [Nat.add_sub_cancel]
        by_cases h2 : n / 2 = 0
        · rw [h2, bitLenAux_zero]; simp; omega
        · obtain ⟨h1, hle⟩ := hge h2
          have : 2 ^ bitLenAux fuel (n / 2) = 2 ^ (bitLenAux fuel (n / 2) - 1) * 2 := by
            rw [← pow_succ]; congr 1; omega
          omega

theorem bitLen_spec (n : Nat) (h : 0 < n) :
    1 ≤ bitLen n ∧ 2 ^ (bitLen n - 1) ≤ n ∧ n < 2 ^ bitLen n := by
  obtain ⟨hlt, hge⟩ := bitLenAux_spec n n le_rfl
  obtain ⟨h1, hle⟩ := hge (by omega)
  exact ⟨h1, hle, hlt⟩

theorem roundHalfEven_near (p q : Nat) (hq : 0 < q) :
    2 * (roundHalfEven p q * q) ≤ 2 * p + q ∧ 2 * p ≤ 2 * (roundHalfEven p q * q) + q := by
  have hdm : q * (p / q) + p % q = p := Nat.div_add_mod p q
  have hr : p % q < q := Nat.mod_lt _ hq
  have e1 : (p / q) * q = q * (p / q) := Nat.mul_comm _ _
  have e2 : (p / q + 1) * q = q * (p / q) + q := by ring
  unfold roundHalfEven
  simp only
  split_ifs <;> (first | rw [e1] | rw [e2]) <;> omega

/-- At level 53 the scaled quotient is at least `2^52`. -/
theorem scale53_lower (a b : Nat) (ha : 0 < a) (hb : 0 < b) :
    2 ^ 52 * (b * 2 ^ scaleDown 53 a b) ≤ a * 2 ^ scaleUp 53 a b := by
  obtain ⟨ha1, hale, _⟩ := bitLen_spec a ha
  obtain ⟨hb1, _, hblt⟩ := bitLen_spec b hb
  unfold scaleDown scaleUp
  by_cases h : bitLen a ≤ 53 + bitLen b
  · have hd : bitLen a - (53 + bitLen b) = 0 := by omega
    rw [hd, pow_zero, Nat.mul_one]
    have hpow : 2 ^ 52 * 2 ^ bitLen b = 2 ^ (bitLen a - 1) * 2 ^ (53 + bitLen b - bitLen a) := by
      rw [← pow_add, ← pow_add]; congr 1; omega
    calc 2 ^ 52 * b ≤ 2 ^ 52 * 2 ^ bitLen b := Nat.mul_le_mul_left _ hblt.le
      _ = 2 ^ (bitLen a - 1) * 2 ^ (53 + bitLen b - bitLen a) := hpow
      _ ≤ a * 2 ^ (53 + bitLen b - bitLen a) := Nat.mul_le_mul_right _ hale
  · have hu : 53 + bitLen b - bitLen a = 0 := by omega
    rw [hu, pow_zero, Nat.mul_one]
    have hpow : 2 ^ 52 * (2 ^ bitLen b * 2 ^ (bitLen a - (53 + bitLen b))) = 2 ^ (bitLen a - 1) := by
      rw [← pow_add, ← pow_add]; congr 1; omega
    calc 2 ^ 52 * (b * 2 ^ (bitLen a - (53 + bitLen b)))
        ≤ 2 ^ 52 * (2 ^ bitLen b * 2 ^ (bitLen a - (53 + bitLen b))) :=
          Nat.mul_le_mul_left _ (Nat.mul_le_mul_right _ hblt.le)
      _ = 2 ^ (bitLen a - 1) := hpow
      _ ≤ a := hale

theorem divLevel_lower (a b : Nat) (ha : 0 < a) (hb : 0 < b) :
    2 ^ 52 * (b * 2 ^ scaleDown (divLevel a b) a b) ≤ a * 2 ^ scaleUp (divLevel a b) a b := by
  unfold divLevel
  split_ifs with h
  · exact h
  · exact scale53_lower a b ha hb

theorem divDouble_den_pos (a b : Nat) : 0 < (divDouble a b).2 := by
  unfold divDouble
  split_ifs
  · exact Nat.one_pos
  · exact Nat.pos_pow_of_pos _ (by norm_num)

/-- The double quotient is within a relative error of `2^-53` of the exact one. -/
theorem divDouble_error (a b : Nat) (hb : 0 < b) :
    (2 : Int) ^ 53 * |((divDouble a b).1 : Int) * (b : Int) - (a : Int) * ((divDouble a b).2 : Int)|
      ≤ (a : Int) * ((divDouble a b).2 : Int) := by
  by_cases ha : a = 0
  · subst ha; simp [divDouble]
  · have hapos : 0 < a := Nat.pos_of_ne_zero ha
    have hlow := divLevel_lower a b hapos hb
    simp only [divDouble, ha, if_false]
    generalize divLevel a b = t at hlow ⊢
    have hq : 0 < b * 2 ^ scaleDown t a b := Nat.mul_pos hb (Nat.pos_pow_of_pos _ (by norm_num))
    obtain ⟨h1, h2⟩ := roundHalfEven_near (a * 2 ^ scaleUp t a b) (b * 2 ^ scaleDown t a b) hq
    generalize roundHalfEven (a * 2 ^ scaleUp t a b) (b * 2 ^ scaleDown t a b) = m at h1 h2 ⊢
    generalize hP : a * 2 ^ scaleUp t a b = P at h1 h2 hlow
    generalize hQ : b * 2 ^ scaleDown t a b = Q at h1 h2 hlow hq
    have e : ((m * 2 ^ scaleDown t a b : Nat) : Int) * b - a * ((2 ^ scaleUp t a b : Nat) : Int)
        = (m : Int) * Q - P := by
      rw [← hP, ← hQ]; push_cast; ring
    rw [e]
    have hP' : (a : Int) * ((2 ^ scaleUp t a b : Nat) : Int) = P := by
      rw [← hP]; push_cast; ring
    rw [hP']
    have h1' : (2 : Int) * (m * Q) ≤ 2 * P + Q := by exact_mod_cast h1
    have h2' : (2 : Int) * P ≤ 2 * (m * Q) + Q := by exact_mod_cast h2
    have hlow' : (2 : Int) ^ 52 * Q ≤ P := by exact_mod_cast hlow
    have habs : 2 * |(m : Int) * Q - P| ≤ Q := by
      rcases abs_cases ((m : Int) * Q - P) with ⟨h, _⟩ | ⟨h, _⟩ <;> rw [h] <;> linarith
    linarith

/-- The six-decimal integer printed for the double `a / b` is within half a unit of
the exact quotient scaled by `10^6`, up to the rounding of the division. -/
theorem fixed6Of_accuracy (a b : Nat) (hb : 0 < b) :
    (2 : Int) ^ 54 * |(fixed6Of a b : Int) * (b : Int) - (10 : Int) ^ 6 * (a : Int)|
      ≤ (2 : Int) ^ 53 * (b : Int) + 2 * (10 : Int) ^ 6 * (a : Int) := by
  have hden := divDouble_den_pos a b
  have herr := divDouble_error a b hb
  obtain ⟨hn1, hn2⟩ := fixed6Digits_nearest (divDouble a b).1 (divDouble a b).2 hden
  unfold fixed6Of
  generalize fixed6Digits (divDouble a b).1 (divDouble a b).2 = n at hn1 hn2 ⊢
  generalize (divDouble a b).1 = num at hn1 hn2 herr
  generalize (divDouble a b).2 = den at hn1 hn2 herr hden
  have hn1' : (2 : Int) * den * n ≤ 2 * num * (10 : Int) ^ 6 + den := by exact_mod_cast hn1
  have hn2' : (2 : Int) * num * (10 : Int) ^ 6 + den < 2 * den * (n + 1) := by
    exact_mod_cast hn2
  have hden' : (0 : Int) < den := by exact_mod_cast hden
  have hX : 2 * |(n : Int) * (den : Int) - (10 : Int) ^ 6 * (num : Int)| ≤ (den : Int) := by
    rcases abs_cases ((n : Int) * (den : Int) - (10 : Int) ^ 6 * (num : Int))
      with ⟨h, _⟩ | ⟨h, _⟩ <;> rw [h] <;> linarith
  have hb' : (0 : Int) ≤ b := by exact_mod_cast hb.le
  have key : (den : Int) * ((n : Int) * (b : Int) - (10 : Int) ^ 6 * (a : Int))
      = (b : Int) * ((n : Int) * (den : Int) - (10 : Int) ^ 6 * (num : Int))
        + (10 : Int) ^ 6 * ((num : Int) * (b : Int) - (a : Int) * (den : Int)) := by ring
  have habs : (den : Int) * |(n : Int) * (b : Int) - (10 : Int) ^ 6 * (a : Int)|
      ≤ (b : Int) * |(n : Int) * (den : Int) - (10 : Int) ^ 6 * (num : Int)|
        + (10 : Int) ^ 6 * |(num : Int) * (b : Int) - (a : Int) * (den : Int)| := by
    calc (den : Int) * |(n : Int) * (b : Int) - (10 : Int) ^ 6 * (a : Int)|
        = |(den : Int) * ((n : Int) * (b : Int) - (10 : Int) ^ 6 * (a : Int))| := by
          rw [abs_mul, abs_of_pos hden']
      _ = |(b : Int) * ((n : Int) * (den : Int) - (10 : Int) ^ 6 * (num : Int))
            + (10 : Int) ^ 6 * ((num : Int) * (b : Int) - (a : Int) * (den : Int))| := by
          rw [key]
      _ ≤ |(b : Int) * ((n : Int) * (den : Int) - (10 : Int) ^ 6 * (num : Int))|
            + |(10 : Int) ^ 6 * ((num : Int) * (b : Int) - (a : Int) * (den : Int))| :=
          abs_add _ _
      _ = (b : Int) * |(n : Int) * (den : Int) - (10 : Int) ^ 6 * (num : Int)|
            + (10 : Int) ^ 6 * |(num : Int) * (b : Int) - (a : Int) * (den : Int)| := by
          rw [abs_mul, abs_mul, abs_of_nonneg hb',
            abs_of_pos (by norm_num : (0 : Int) < (10 : Int) ^ 6)]
  have hbX : (b : Int) * (2 * |(n : Int) * (den : Int) - (10 : Int) ^ 6 * (num : Int)|)
      ≤ (b : Int) * (den : Int) :=
    mul_le_mul_of_nonneg_left hX hb'
  have hfin : (den : Int) * ((2 : Int) ^ 54
        * |(n : Int) * (b : Int) - (10 : Int) ^ 6 * (a : Int)|)
      ≤ (den : Int) * ((2 : Int) ^ 53 * (b : Int) + 2 * (10 : Int) ^ 6 * (a : Int)) := by
    nlinarith [habs, hbX, herr]
  exact le_of_mul_le_mul_left hfin hden'

/-- At level 52 the scaled quotient is below `2^53`. -/
theorem scale52_upper (a b : Nat) (ha : 0 < a) (hb : 0 < b) :
    a * 2 ^ scaleUp 52 a b < 2 ^ 53 * (b * 2 ^ scaleDown 52 a b) := by
  obtain ⟨ha1, _, halt⟩ := bitLen_spec a ha
  obtain ⟨hb1, hble, _⟩ := bitLen_spec b hb
  unfold scaleDown scaleUp
  by_cases h : bitLen a ≤ 52 + bitLen b
  · have hd : bitLen a - (52 + bitLen b) = 0 := by omega
    rw [hd, pow_zero, Nat.mul_one]
    have hpow : 2 ^ bitLen a * 2 ^ (52 + bitLen b - bitLen a) = 2 ^ 53 * 2 ^ (bitLen b - 1) := by
      rw [← pow_add, ← pow_add]; congr 1; omega
    calc a * 2 ^ (52 + bitLen b - bitLen a)
        < 2 ^ bitLen a * 2 ^ (52 + bitLen b - bitLen a) :=
          Nat.mul_lt_mul_of_pos_right halt (Nat.pos_pow_of_pos _ (by norm_num))
      _ = 2 ^ 53 * 2 ^ (bitLen b - 1) := hpow
      _ ≤ 2 ^ 53 * b := Nat.mul_le_mul_left _ hble
  · have hu : 52 + bitLen b - bitLen a = 0 := by omega
    rw [hu, pow_zero, Nat.mul_one]
    have hpow : 2 ^ 53 * (2 ^ (bitLen b - 1) * 2 ^ (bitLen a - (52 + bitLen b))) = 2 ^ bitLen a := by
      rw [← pow_add, ← pow_add]; congr 1; omega
    calc a < 2 ^ bitLen a := halt
      _ = 2 ^ 53 * (2 ^ (bitLen b - 1) * 2 ^ (bitLen a - (52 + bitLen b))) := hpow.symm
      _ ≤ 2 ^ 53 * (b * 2 ^ (bitLen a - (52 + bitLen b))) :=
          Nat.mul_le_mul_left _ (Nat.mul_le_mul_right _ hble)

theorem divLevel_upper (a b : Nat) (ha : 0 < a) (hb : 0 < b) :
    a * 2 ^ scaleUp (divLevel a b) a b < 2 ^ 53 * (b * 2 ^ scaleDown (divLevel a b) a b) := by
  unfold divLevel
  split_ifs with h
  · exact scale52_upper a b ha hb
  · have h' : a * 2 ^ scaleUp 52 a b < 2 ^ 52 * (b * 2 ^ scaleDown 52 a b) := Nat.lt_of_not_le h
    unfold scaleUp scaleDown at h' ⊢
    by_cases hc : bitLen a ≤ 52 + bitLen b
    · have hd : bitLen a - (52 + bitLen b) = 0 := by omega
      have hd3 : bitLen a - (53 + bitLen b) = 0 := by omega
      have hu : 53 + bitLen b - bitLen a = (52 + bitLen b - bitLen a) + 1 := by omega
      rw [hd, pow_zero, Nat.mul_one] at h'
      rw [hd3, pow_zero, Nat.mul_one, hu, pow_succ 2 (52 + bitLen b - bitLen a)]
      have : a * (2 ^ (52 + bitLen b - bitLen a) * 2) = 2 * (a * 2 ^ (52 + bitLen b - bitLen a)) := by
        ring
      rw [this]
      omega
    · have hu : 52 + bitLen b - bitLen a = 0 := by omega
      have hu3 : 53 + bitLen b - bitLen a = 0 := by omega
      have hd : bitLen a - (52 + bitLen b) = (bitLen a - (53 + bitLen b)) + 1 := by omega
      rw [hu, pow_zero, Nat.mul_one, hd, pow_succ 2 (bitLen a - (53 + bitLen b))] at h'
      rw [hu3, pow_zero, Nat.mul_one]
      have : 2 ^ 52 * (b * (2 ^ (bitLen a - (53 + bitLen b)) * 2))
          = 2 ^ 53 * (b * 2 ^ (bitLen a - (53 + bitLen b))) := by ring
      rw [this] at h'
      exact h'

/-- The quotient of positive integers is a double with a full 53-bit significand:
`m * 2^dn / 2^up` with `2^52 ≤ m ≤ 2^53`, `m` a nearest integer to the scaled quotient. -/
theorem divDouble_significand (a b : Nat) (ha : 0 < a) (hb : 0 < b) :
    ∃ m up dn : Nat, divDouble a b = (m * 2 ^ dn, 2 ^ up) ∧ (up = 0 ∨ dn = 0)
      ∧ 2 ^ 52 ≤ m ∧ m ≤ 2 ^ 53
      ∧ 2 * (m * (b * 2 ^ dn)) ≤ 2 * (a * 2 ^ up) + b * 2 ^ dn
      ∧ 2 * (a * 2 ^ up) ≤ 2 * (m * (b * 2 ^ dn)) + b * 2 ^ dn := by
  have hlow := divLevel_lower a b ha hb
  have hup := divLevel_upper a b ha hb
  have hq : 0 < b * 2 ^ scaleDown (divLevel a b) a b :=
    Nat.mul_pos hb (Nat.pos_pow_of_pos _ (by norm_num))
  obtain ⟨h1, h2⟩ := roundHalfEven_near (a * 2 ^ scaleUp (divLevel a b) a b)
    (b * 2 ^ scaleDown (divLevel a b) a b) hq
  refine ⟨roundHalfEven (a * 2 ^ scaleUp (divLevel a b) a b)
      (b * 2 ^ scaleDown (divLevel a b) a b), scaleUp (divLevel a b) a b,
    scaleDown (divLevel a b) a b, ?_, ?_, ?_, ?_, h1, h2⟩
  · simp [divDouble, Nat.pos_iff_ne_zero.mp ha]
  · unfold scaleUp scaleDown; omega
  · by_contra hlt
    push_neg at hlt
    nlinarith [Nat.mul_le_mul_right (b * 2 ^ scaleDown (divLevel a b) a b)
      (Nat.le_of_lt_succ (Nat.lt_succ_of_lt hlt))]
  · by_contra hgt
    push_neg at hgt
    nlinarith [Nat.mul_le_mul_right (b * 2 ^ scaleDown (divLevel a b) a b)
      (Nat.succ_le_of_lt hgt)]

/-- C8. With recording active, a click on the viewer appends exactly one pin at the
end of the collection (the pins already there and their order are kept): its
`frameId` is the current frame index and its `x` and `y` are `clientX / clientWidth`
and `clientY / clientHeight` printed by `toFixed(6)`. With recording inactive the
click changes nothing. No notification is fired in either case. The printed text
is a decimal numeral, a point and exactly six decimal digits; the integer `n` these
digits spell (with the integer part) is the nearest to `10^6` times the double
quotient, the larger at a tie, and so within half a unit, plus the rounding error
of the division (a relative `2^-53`), of `10^6 * a / b`. -/
theorem click_appends_pin (cfg : Config) (v : Viewer) (s : State) (x y : Int) (uid : String) :
    (s.isRecording = true →
        step cfg v s (.click x y uid)
          = ({ s with pins := s.pins ++ [{ id := uid
                                           frameId := s.currentImageIndex
                                           x := toFixed6 x v.clientWidth
                                           y := toFixed6 y v.clientHeight }] }, []))
    ∧ (s.isRecording = false → step cfg v s (.click x y uid) = (s, []))
    ∧ (∀ a b : Nat, 0 < b →
        toFixed6 a b
          = toString (fixed6Of a b / 10 ^ 6) ++ "." ++ String.mk (sixDigits (fixed6Of a b))
        ∧ (sixDigits (fixed6Of a b)).length = 6
        ∧ (∀ c ∈ sixDigits (fixed6Of a b), c.isDigit = true)
        ∧ digitsValue (sixDigits (fixed6Of a b)) = fixed6Of a b % 10 ^ 6
        ∧ 2 * (divDouble a b).2 * fixed6Of a b ≤ 2 * (divDouble a b).1 * 10 ^ 6 + (divDouble a b).2
        ∧ 2 * (divDouble a b).1 * 10 ^ 6 + (divDouble a b).2
            < 2 * (divDouble a b).2 * (fixed6Of a b + 1)
        ∧ (2 : Int) ^ 53
            * |((divDouble a b).1 : Int) * (b : Int) - (a : Int) * ((divDouble a b).2 : Int)|
            ≤ (a : Int) * ((divDouble a b).2 : Int)
        ∧ (2 : Int) ^ 54 * |(fixed6Of a b : Int) * (b : Int) - (10 : Int) ^ 6 * (a : Int)|
            ≤ (2 : Int) ^ 53 * (b : Int) + 2 * (10 : Int) ^ 6 * (a : Int)) := by
  refine ⟨?_, ?_, ?_⟩
  · intro h
    simp [step, imageViewerClickHandler, h, setPins, newPin]
  · intro h
    simp [step, imageViewerClickHandler, h]
  · intro a b hb
    obtain ⟨hlen, hdig, hval⟩ := sixDigits_spec (fixed6Of a b)
    obtain ⟨hn1, hn2⟩ := fixed6Digits_nearest (divDouble a b).1 (divDouble a b).2
      (divDouble_den_pos a b)
    refine ⟨?_, hlen, hdig, hval, hn1, hn2, divDouble_error a b hb, fixed6Of_accuracy a b hb⟩
    have hb0 : ((b : Nat) : Int) ≠ 0 := by omega
    have hneg : ¬ (((a : Nat) : Int) < 0 ∧ (0 : Int) < (b : Nat)
        ∨ (0 : Int) < (a : Nat) ∧ ((b : Nat) : Int) < 0) := by omega
    simp only [toFixed6, hb0, if_false, hneg, Int.natAbs_ofNat, fixed6Render]

/-- C8 at concrete inputs. The input of the specification: recording on, frame index
3, a click at a quarter of the width and three quarters of the height, empty store;
the same click with recording off; and a click at column 3 of a viewer 640 wide,
where the double `3 / 640` lies just below the tie `0.0046875`. -/
theorem click_appends_pin_witness :
    step config36 viewer0 (recordingAt 3 []) (.click 100 300 "k1")
      = (recordingAt 3 [{ id := "k1", frameId := 3, x := "0.250000", y := "0.750000" }], [])
    ∧ step config36 viewer0 (atFrame 3) (.click 100 300 "k2") = (atFrame 3, [])
    ∧ step config36 { offsetLeft := 0, clientWidth := 640, clientHeight := 400 }
        (recordingAt 3 []) (.click 3 300 "k3")
      = (recordingAt 3 [{ id := "k3", frameId := 3, x := "0.004687", y := "0.750000" }], []) :=
  ⟨((click_appends_pin config36 viewer0 (recordingAt 3 []) 100 300 "k1").1 rfl).trans
      (by decide),
   (click_appends_pin config36 viewer0 (atFrame 3) 100 300 "k2").2.1 rfl,
   ((click_appends_pin config36 { offsetLeft := 0, clientWidth := 640, clientHeight := 400 }
      (recordingAt 3 []) 3 300 "k3").1 rfl).trans (by decide)⟩

theorem filter_id_ne_eq_self (ps : List Pin) (i : String) (h : ∀ q ∈ ps, q.id ≠ i) :
    ps.filter (fun item => item.id != i) = ps := by
  rw [List.filter_eq_self]
  intro q hq
  simpa using h q hq

/-- C9. With recording active and pairwise distinct ids, a double-click on pin `p`
removes exactly the pin whose id is `p.id` and keeps every other pin, in the original
order; the collection is unchanged when recording is inactive, and when no pin has
that id. No notification is fired. -/
theorem pinDoubleClick_removes_pin (cfg : Config) (v : Viewer) (s : State) (p : Pin) :
    (s.isRecording = true → (s.pins.map Pin.id).Nodup →
        ∀ (l1 : List Pin) (q : Pin) (l2 : List Pin), s.pins = l1 ++ q :: l2 → q.id = p.id →
          step cfg v s (.pinDoubleClick p) = ({ s with pins := l1 ++ l2 }, []))
    ∧ (s.isRecording = false → step cfg v s (.pinDoubleClick p) = (s, []))
    ∧ (s.isRecording = true → (∀ q ∈ s.pins, q.id ≠ p.id) →
        step cfg v s (.pinDoubleClick p) = (s, [])) := by
  refine ⟨?_, ?_, ?_⟩
  · intro hrec hnd l1 q l2 hs hq
    rw [hs, List.map_append, List.map_cons, List.nodup_append] at hnd
    obtain ⟨_, hnd2, hdis⟩ := hnd
    have h1 : ∀ t ∈ l1, t.id ≠ p.id := by
      intro t ht heq
      exact hdis (List.mem_map_of_mem Pin.id ht) (by rw [heq, ← hq]; exact List.mem_cons_self _ _)
    have h2 : ∀ t ∈ l2, t.id ≠ p.id := by
      intro t ht heq
      rw [List.nodup_cons] at hnd2
      exact hnd2.1 (by rw [hq, ← heq]; exact List.mem_map_of_mem Pin.id ht)
    simp only [step, pinDoubleClickHandler, hrec, if_true, setPins, hs, List.filter_append,
      List.filter_cons, hq, bne_self_eq_false, Bool.false_eq_true, if_false,
      filter_id_ne_eq_self l1 p.id h1, filter_id_ne_eq_self l2 p.id h2]
  · intro h
    simp [step, pinDoubleClickHandler, h]
  · intro hrec hne
    show pinDoubleClickHandler s p (s, []) = (s, [])
    unfold pinDoubleClickHandler
    rw [if_pos hrec, filter_id_ne_eq_self s.pins p.id hne]
    rfl

/-- C9 at the concrete input of the specification: two pins are added, then the
first is removed by its id; exactly the second is left. -/
theorem pinDoubleClick_removes_pin_witness :
    run config36 viewer0 (recordingAt 3 []) [.click 100 300 "k1", .click 200 100 "k2"]
      = recordingAt 3 [pinA, pinB]
    ∧ step config36 viewer0 (recordingAt 3 [pinA, pinB]) (.pinDoubleClick pinA)
      = (recordingAt 3 [pinB], []) :=
  ⟨by decide,
   (pinDoubleClick_removes_pin config36 viewer0 (recordingAt 3 [pinA, pinB]) pinA).1 rfl
     (by decide) [] pinA [pinB] rfl rfl⟩

/-! ## Which handlers write the pin collection -/

theorem nextMove_pins (cfg : Config) (r : State) (acc : Eff) :
    (nextMove cfg r acc).1.pins = acc.1.pins := by
  unfold nextMove; split_ifs <;> rfl

theorem prevMove_pins (cfg : Config) (r : State) (acc : Eff) :
    (prevMove cfg r acc).1.pins = acc.1.pins := by
  unfold prevMove; split_ifs <;> rfl

theorem rotateViewerImage_pins (cfg : Config) (v : Viewer) (r : State) (e : GestureEvt)
    (acc : Eff) : (rotateViewerImage cfg v r e acc).1.pins = acc.1.pins := by
  unfold rotateViewerImage
  simp only
  split_ifs
  · rw [nextMove_pins]; rfl
  · rw [prevMove_pins]; rfl
  · rfl

theorem toggleAutoplay_pins (b : Bool) (acc : Eff) :
    (toggleAutoplay b acc).1.pins = acc.1.pins := by
  cases b <;> rfl

theorem toggleRecording_pins (r : State) (b : Bool) (acc : Eff) :
    (toggleRecording r b acc).1.pins = acc.1.pins := by
  cases b <;> rfl

/-- Every event that is neither a viewer click nor a pin double-click leaves the
pin collection as it was. -/
theorem step_pins_of_not_pin_event (cfg : Config) (v : Viewer) (s : State) (ev : Event)
    (hc : ∀ x y u, ev ≠ .click x y u) (hd : ∀ p, ev ≠ .pinDoubleClick p) :
    (step cfg v s ev).1.pins = s.pins := by
  cases ev with
  | mouseDown x =>
    simp only [step, imageViewerMouseDownHandler]
    split_ifs <;> simp [toggleAutoplay_pins, rotateViewerImage_pins, startDragging, fire,
      setIsDragging]
  | mouseUp =>
    simp only [step, imageViewerMouseUpHandler]
    split_ifs <;> rfl
  | mouseMove x =>
    simp only [step, imageViewerMouseMoveHandler]
    split_ifs <;> simp [rotateViewerImage_pins]
  | mouseLeave =>
    simp only [step, imageViewerMouseLeaveHandler]
    split_ifs <;> simp [toggleAutoplay_pins, resetMoveBuffer, stopDragging, fire,
      setIsDragging, setMoveBuffer]
  | mouseEnter =>
    simp only [step, imageViewerMouseEnterHandler]
    split_ifs <;> simp [toggleAutoplay_pins]
  | click x y u => exact absurd rfl (hc x y u)
  | touchStart x =>
    simp only [step, imageViewerTouchStartHandler]
    split_ifs <;> simp [toggleAutoplay_pins, rotateViewerImage_pins, startDragging, fire,
      setIsDragging]
  | touchMove x =>
    simp only [step, imageViewerTouchMoveHandler]
    split_ifs <;> simp [rotateViewerImage_pins]
  | touchEnd =>
    simp only [step, imageViewerTouchEndHandler]
    split_ifs <;> simp [toggleAutoplay_pins, resetMoveBuffer, stopDragging, fire,
      setIsDragging, setMoveBuffer]
  | wheel d =>
    simp only [step, imageViewerWheelHandler]
    split_ifs <;> simp [nextMove_pins, prevMove_pins]
  | pinClick p =>
    simp only [step, pinClickHandler]
    split_ifs <;> rfl
  | pinDoubleClick p => exact absurd rfl (hd p)
  | next => simp [step, nextMove_pins]
  | prev => simp [step, prevMove_pins]
  | toggleAutoplay b => simp [step, toggleAutoplay_pins]
  | toggleRecording b => simp [step, toggleRecording_pins]
  | autoplayTick =>
    simp only [step, autoplayTick]
    split_ifs <;> simp [nextMove_pins]

/-- C10. The pin collection is written only by recording-mode clicks: every event
other than a viewer click or a pin double-click handled while `isRecording` is true
(gestures, wheel, autoplay ticks, the control surface, pin clicks, and any event at
all while recording is inactive) leaves the collection identical; and whatever the
event, the new collection is the old one, the old one with one pin appended, or the
old one with the pins of one id filtered out, so no field of a pin that stays is
ever changed. -/
theorem pins_written_only_by_recording_clicks (cfg : Config) (v : Viewer) (s : State)
    (ev : Event) :
    ((s.isRecording = false
        ∨ ((∀ x y u, ev ≠ .click x y u) ∧ (∀ p, ev ≠ .pinDoubleClick p))) →
      (step cfg v s ev).1.pins = s.pins)
    ∧ ((step cfg v s ev).1.pins = s.pins
        ∨ (∃ p : Pin, (step cfg v s ev).1.pins = s.pins ++ [p])
        ∨ (∃ i : String, (step cfg v s ev).1.pins = s.pins.filter (fun q => q.id != i))) := by
  have hclick : ∀ x y u, (step cfg v s (.click x y u)).1.pins
      = if s.isRecording then s.pins ++ [newPin v s x y u] else s.pins := by
    intro x y u
    simp only [step, imageViewerClickHandler]
    split_ifs <;> rfl
  have hdbl : ∀ p, (step cfg v s (.pinDoubleClick p)).1.pins
      = if s.isRecording then s.pins.filter (fun q => q.id != p.id) else s.pins := by
    intro p
    simp only [step, pinDoubleClickHandler]
    split_ifs <;> rfl
  constructor
  · rintro (hoff | ⟨hc, hd⟩)
    · by_cases hc : ∃ x y u, ev = .click x y u
      · obtain ⟨x, y, u, rfl⟩ := hc
        rw [hclick, hoff]; rfl
      · by_cases hd : ∃ p, ev = .pinDoubleClick p
        · obtain ⟨p, rfl⟩ := hd
          rw [hdbl, hoff]; rfl
        · exact step_pins_of_not_pin_event cfg v s ev
            (fun x y u h => hc ⟨x, y, u, h⟩) (fun p h => hd ⟨p, h⟩)
    · exact step_pins_of_not_pin_event cfg v s ev hc hd
  · by_cases hc : ∃ x y u, ev = .click x y u
    · obtain ⟨x, y, u, rfl⟩ := hc
      rw [hclick]
      split_ifs
      · exact Or.inr (Or.inl ⟨_, rfl⟩)
      · exact Or.inl rfl
    · by_cases hd : ∃ p, ev = .pinDoubleClick p
      · obtain ⟨p, rfl⟩ := hd
        rw [hdbl]
        split_ifs
        · exact Or.inr (Or.inr ⟨_, rfl⟩)
        · exact Or.inl rfl
      · exact Or.inl (step_pins_of_not_pin_event cfg v s ev
          (fun x y u h => hc ⟨x, y, u, h⟩) (fun p h => hd ⟨p, h⟩))

/-- C10 at concrete inputs: a click while recording is inactive, and a wheel event
while recording is active, on a store of two pins. -/
theorem pins_written_only_by_recording_clicks_witness :
    (step config36 viewer0 { recordingAt 3 [pinA, pinB] with isRecording := false }
        (.click 100 300 "k3")).1.pins = [pinA, pinB]
    ∧ (step { count := 36, mousewheel := true } viewer0 (recordingAt 3 [pinA, pinB])
        (.wheel 120)).1.pins = [pinA, pinB] :=
  ⟨(pins_written_only_by_recording_clicks config36 viewer0
      { recordingAt 3 [pinA, pinB] with isRecording := false } (.click 100 300 "k3")).1
      (Or.inl rfl),
   (pins_written_only_by_recording_clicks { count := 36, mousewheel := true } viewer0
      (recordingAt 3 [pinA, pinB]) (.wheel 120)).1
      (Or.inr ⟨fun _ _ _ h => Event.noConfusion h, fun _ h => Event.noConfusion h⟩)⟩

/-! ## Pin coordinates and the viewer origin -/

/-- C11, the code at the failing input. The viewer's left edge is at 500, it is 400
wide, and recording is on; a click at `clientX = 700` is inside the viewer, 200
pixels from its left edge (the coordinate `rotateViewerImage` would compute), so the
normalized `x` is `0.5`. The click handler divides `clientX` itself by the width and
stores `x = "1.750000"`, which is not in `[0, 1]`. -/
theorem click_pin_ignores_viewer_origin :
    step config36 { offsetLeft := 500, clientWidth := 400, clientHeight := 400 }
        (recordingAt 3 []) (.click 700 100 "k1")
      = (recordingAt 3 [{ id := "k1", frameId := 3, x := "1.750000", y := "0.250000" }], [])
    ∧ gestureCoord { offsetLeft := 500, clientWidth := 400, clientHeight := 400 } (.mouse 700)
      = 200
    ∧ toFixed6 200 400 = "0.500000" := by
  refine ⟨by decide, by decide, by decide⟩

/-! ## Recording mode -/

theorem runTrace_fst (cfg : Config) (v : Viewer) (s : State) (evs : List Event) :
    (runTrace cfg v s evs).1 = run cfg v s evs := by
  induction evs generalizing s with
  | nil => rfl
  | cons ev evs ih => simp only [runTrace, run, ih]

theorem run_append (cfg : Config) (v : Viewer) (s : State) (e1 e2 : List Event) :
    run cfg v s (e1 ++ e2) = run cfg v (run cfg v s e1) e2 := by
  induction e1 generalizing s with
  | nil => rfl
  | cons ev evs ih =>
    rw [List.cons_append]
    simp only [run]
    exact ih _

theorem runTrace_append (cfg : Config) (v : Viewer) (s : State) (e1 e2 : List Event) :
    (runTrace cfg v s (e1 ++ e2)).2
      = (runTrace cfg v s e1).2 ++ (runTrace cfg v (run cfg v s e1) e2).2 := by
  induction e1 generalizing s with
  | nil => simp [runTrace, run]
  | cons ev evs ih =>
    rw [List.cons_append]
    simp only [runTrace, run, List.append_assoc]
    rw [ih]

theorem step_pinEdit_trace (cfg : Config) (v : Viewer) (s : State) (ev : Event)
    (h : ev.isPinEdit = true) : (step cfg v s ev).2 = [] := by
  cases ev with
  | click x y u =>
    simp only [step, imageViewerClickHandler]
    split_ifs <;> rfl
  | pinDoubleClick p =>
    simp only [step, pinDoubleClickHandler]
    split_ifs <;> rfl
  | _ => simp [Event.isPinEdit] at h

theorem runTrace_pinEdits (cfg : Config) (v : Viewer) (s : State) (evs : List Event)
    (h : ∀ ev ∈ evs, ev.isPinEdit = true) : (runTrace cfg v s evs).2 = [] := by
  induction evs generalizing s with
  | nil => rfl
  | cons ev evs ih =>
    simp only [runTrace, step_pinEdit_trace cfg v s ev (h ev (List.mem_cons_self _ _)),
      List.nil_append]
    exact ih _ (fun e he => h e (List.mem_cons_of_mem _ he))

theorem step_toggleRecording (cfg : Config) (v : Viewer) (s : State) (b : Bool) :
    step cfg v s (.toggleRecording b)
      = ({ s with isRecording := b },
         [if b then .onRecordStart s.pins else .onRecordStop s.pins]) := by
  cases b <;> rfl

/-- C12. The call `toggleRecording(state)` sets `isRecording` to `state`, leaves the
pin collection (and every other cell) unchanged and fires exactly one notification,
`onRecordStart(pins)` for `true` and `onRecordStop(pins)` for `false`, carrying the
collection of the render in which it is called. Hence `toggleRecording(true)`, any
events, `toggleRecording(false)` fires `onRecordStart` first and `onRecordStop` last,
each with the collection as of its own call; when the events in between are pin
additions and removals these two are the only notifications. -/
theorem toggleRecording_notifies (cfg : Config) (v : Viewer) (s : State) :
    (∀ b : Bool, step cfg v s (.toggleRecording b)
        = ({ s with isRecording := b },
           [if b then .onRecordStart s.pins else .onRecordStop s.pins]))
    ∧ (∀ b : Bool, (step cfg v s (.toggleRecording b)).1.pins = s.pins)
    ∧ (∀ evs : List Event,
        (runTrace cfg v s (.toggleRecording true :: evs ++ [.toggleRecording false])).2
          = [.onRecordStart s.pins]
            ++ (runTrace cfg v { s with isRecording := true } evs).2
            ++ [.onRecordStop (run cfg v { s with isRecording := true } evs).pins])
    ∧ (∀ evs : List Event, (∀ ev ∈ evs, ev.isPinEdit = true) →
        (runTrace cfg v s (.toggleRecording true :: evs ++ [.toggleRecording false])).2
          = [.onRecordStart s.pins,
             .onRecordStop (run cfg v { s with isRecording := true } evs).pins]) := by
  have hgen : ∀ evs : List Event,
      (runTrace cfg v s (.toggleRecording true :: evs ++ [.toggleRecording false])).2
        = [.onRecordStart s.pins]
          ++ (runTrace cfg v { s with isRecording := true } evs).2
          ++ [.onRecordStop (run cfg v { s with isRecording := true } evs).pins] := by
    intro evs
    rw [List.cons_append]
    simp only [runTrace, step_toggleRecording, runTrace_append, if_true, List.append_nil,
      Bool.false_eq_true, if_false, List.append_assoc]
  refine ⟨step_toggleRecording cfg v s, ?_, hgen, ?_⟩
  · intro b
    rw [step_toggleRecording]
  · intro evs hev
    rw [hgen evs, runTrace_pinEdits cfg v _ evs hev]
    rfl

/-- C12 at a concrete input: recording is switched on over an empty store, two pins
are added, the first is removed, and recording is switched off. -/
theorem toggleRecording_notifies_witness :
    (runTrace config36 viewer0 (atFrame 3)
        (.toggleRecording true
          :: [.click 100 300 "k1", .click 200 100 "k2", .pinDoubleClick pinA]
          ++ [.toggleRecording false])).2
      = [.onRecordStart [], .onRecordStop [pinB]] :=
  ((toggleRecording_notifies config36 viewer0 (atFrame 3)).2.2.2
      [.click 100 300 "k1", .click 200 100 "k2", .pinDoubleClick pinA]
      (by decide)).trans (by decide)

/-! ## Autoplay -/

/-- After `k` calls of `prevFrame` from a valid index `i`, the index is `(i - k) mod n`
and no other cell has changed. -/
theorem iterate_afterPrevFrame (cfg : Config) (s : State) (hn : 1 ≤ cfg.count)
    (hv : ValidIndex cfg s) (k : Nat) :
    (afterPrevFrame cfg)^[k] s
      = { s with currentImageIndex := (s.currentImageIndex - k) % cfg.count } := by
  induction k with
  | zero =>
    obtain ⟨h0, h1⟩ := hv
    simp [Int.emod_eq_of_lt h0 h1]
  | succ k ih =>
    rw [Function.iterate_succ_apply', ih, afterPrevFrame_eq]
    have hv2 : ValidIndex cfg
        { s with currentImageIndex := (s.currentImageIndex - k) % cfg.count } :=
      mod_valid _ _ hn
    rw [prevIndex_eq_mod _ _ hv2]
    simp only [Nat.cast_succ]
    congr 1
    rw [Int.add_emod_self, Int.sub_emod, Int.emod_emod, ← Int.sub_emod]
    congr 1
    omega

theorem step_autoplayTick (cfg : Config) (v : Viewer) (s : State) :
    step cfg v s .autoplayTick
      = if s.isAutoPlayRunning then nextMove cfg s (s, []) else (s, []) := rfl

theorem afterAutoplayTick_forward (cfg : Config) (v : Viewer) (s : State)
    (hrun : s.isAutoPlayRunning = true) (hinv : cfg.inverse = false) :
    afterAutoplayTick cfg v s = afterNextFrame cfg s := by
  simp [afterAutoplayTick, step_autoplayTick, hrun, nextMove, hinv, afterNextFrame, nextFrame,
    fire, setCurrentImageIndex]

theorem afterAutoplayTick_backward (cfg : Config) (v : Viewer) (s : State)
    (hrun : s.isAutoPlayRunning = true) (hinv : cfg.inverse = true) :
    afterAutoplayTick cfg v s = afterPrevFrame cfg s := by
  simp [afterAutoplayTick, step_autoplayTick, hrun, nextMove, hinv, afterPrevFrame, prevFrame,
    fire, setCurrentImageIndex]

theorem iterate_afterAutoplayTick_forward (cfg : Config) (v : Viewer) (s : State)
    (hn : 1 ≤ cfg.count) (hv : ValidIndex cfg s) (hrun : s.isAutoPlayRunning = true)
    (hinv : cfg.inverse = false) (k : Nat) :
    (afterAutoplayTick cfg v)^[k] s
      = { s with currentImageIndex := (s.currentImageIndex + k) % cfg.count } := by
  induction k with
  | zero => exact iterate_afterNextFrame cfg s hn hv 0
  | succ k ih =>
    have h2 := afterAutoplayTick_forward cfg v
      { s with currentImageIndex := (s.currentImageIndex + k) % cfg.count } hrun hinv
    rw [Function.iterate_succ_apply', ih, h2, ← iterate_afterNextFrame cfg s hn hv k,
      ← Function.iterate_succ_apply' (afterNextFrame cfg),
      iterate_afterNextFrame cfg s hn hv (k + 1)]

theorem iterate_afterAutoplayTick_backward (cfg : Config) (v : Viewer) (s : State)
    (hn : 1 ≤ cfg.count) (hv : ValidIndex cfg s) (hrun : s.isAutoPlayRunning = true)
    (hinv : cfg.inverse = true) (k : Nat) :
    (afterAutoplayTick cfg v)^[k] s
      = { s with currentImageIndex := (s.currentImageIndex - k) % cfg.count } := by
  induction k with
  | zero => exact iterate_afterPrevFrame cfg s hn hv 0
  | succ k ih =>
    have h2 := afterAutoplayTick_backward cfg v
      { s with currentImageIndex := (s.currentImageIndex - k) % cfg.count } hrun hinv
    rw [Function.iterate_succ_apply', ih, h2, ← iterate_afterPrevFrame cfg s hn hv k,
      ← Function.iterate_succ_apply' (afterPrevFrame cfg),
      iterate_afterPrevFrame cfg s hn hv (k + 1)]

/-- C13. Autoplay progress: for `frameCount = n ≥ 1`, a starting index `i` in `[0, n)`
and autoplay running, after `k` timer ticks (each a call of `nextMove`, nothing else
in between) the frame index is `(i + k) mod n` when `inverse` is false and
`(i - k) mod n` (the non-negative residue) when `inverse` is true. A timer tick is
delivered to `nextMove` only while `isAutoPlayRunning` is true: when it is false,
and in particular after `toggleAutoplay(false)`, a tick changes nothing and fires
nothing. -/
theorem autoplay_progress (cfg : Config) (v : Viewer) (s : State) (hn : 1 ≤ cfg.count)
    (hv : ValidIndex cfg s) (k : Nat) :
    (s.isAutoPlayRunning = true → step cfg v s .autoplayTick = nextMove cfg s (s, []))
    ∧ (s.isAutoPlayRunning = true → cfg.inverse = false →
        ((afterAutoplayTick cfg v)^[k] s).currentImageIndex
          = (s.currentImageIndex + k) % cfg.count)
    ∧ (s.isAutoPlayRunning = true → cfg.inverse = true →
        ((afterAutoplayTick cfg v)^[k] s).currentImageIndex
          = (s.currentImageIndex - k) % cfg.count)
    ∧ (s.isAutoPlayRunning = false → step cfg v s .autoplayTick = (s, []))
    ∧ step cfg v (step cfg v s (.toggleAutoplay false)).1 .autoplayTick
        = ((step cfg v s (.toggleAutoplay false)).1, []) := by
  refine ⟨?_, ?_, ?_, ?_, ?_⟩
  · intro hrun
    rw [step_autoplayTick, if_pos hrun]
  · intro hrun hinv
    rw [iterate_afterAutoplayTick_forward cfg v s hn hv hrun hinv k]
  · intro hrun hinv
    rw [iterate_afterAutoplayTick_backward cfg v s hn hv hrun hinv k]
  · intro hoff
    rw [step_autoplayTick, hoff]
    rfl
  · rfl

/-- C13 at concrete inputs: five frames, autoplay running from frame 3, seven ticks,
forwards and under `inverse`. -/
theorem autoplay_progress_witness :
    ((afterAutoplayTick { count := 5 } viewer0)^[7]
        { atFrame 3 with isAutoPlayRunning := true }).currentImageIndex = 0
    ∧ ((afterAutoplayTick { count := 5, inverse := true } viewer0)^[7]
        { atFrame 3 with isAutoPlayRunning := true }).currentImageIndex = 1
    ∧ step { count := 5 } viewer0 (atFrame 3) .autoplayTick = (atFrame 3, []) :=
  ⟨(autoplay_progress { count := 5 } viewer0 { atFrame 3 with isAutoPlayRunning := true }
      (by decide) (by decide) 7).2.1 rfl rfl,
   (autoplay_progress { count := 5, inverse := true } viewer0
      { atFrame 3 with isAutoPlayRunning := true } (by decide) (by decide) 7).2.2.1 rfl rfl,
   (autoplay_progress { count := 5 } viewer0 (atFrame 3) (by decide) (by decide) 0).2.2.2.1
      rfl⟩

theorem step_toggleAutoplay (cfg : Config) (v : Viewer) (s : State) (b : Bool) :
    step cfg v s (.toggleAutoplay b)
      = ({ s with isAutoPlayRunning := b },
         [if b then .onAutoplayStart else .onAutoplayStop]) := by
  cases b <;> rfl

/-- C14. The call `toggleAutoplay(state)` sets `isAutoPlayRunning` to `state` and fires
exactly one notification, `onAutoplayStart` for `true` and `onAutoplayStop` for
`false`, whatever the flag was; `toggleAutoplay(false)` with autoplay already stopped
changes no state and still fires `onAutoplayStop`. The frame index, move buffer,
pins, `isDragging` and `isRecording` are never changed. -/
theorem toggleAutoplay_notifies (cfg : Config) (v : Viewer) (s : State) :
    (∀ b : Bool, step cfg v s (.toggleAutoplay b)
        = ({ s with isAutoPlayRunning := b },
           [if b then .onAutoplayStart else .onAutoplayStop]))
    ∧ (s.isAutoPlayRunning = false →
        step cfg v s (.toggleAutoplay false) = (s, [.onAutoplayStop]))
    ∧ (∀ b : Bool,
        (step cfg v s (.toggleAutoplay b)).1.currentImageIndex = s.currentImageIndex
        ∧ (step cfg v s (.toggleAutoplay b)).1.moveBuffer = s.moveBuffer
        ∧ (step cfg v s (.toggleAutoplay b)).1.pins = s.pins
        ∧ (step cfg v s (.toggleAutoplay b)).1.isDragging = s.isDragging
        ∧ (step cfg v s (.toggleAutoplay b)).1.isRecording = s.isRecording) := by
  refine ⟨step_toggleAutoplay cfg v s, ?_, ?_⟩
  · intro hoff
    rw [step_toggleAutoplay]
    obtain ⟨mb, i, d, a, r, ps⟩ := s
    simp only at hoff
    subst hoff
    rfl
  · intro b
    rw [step_toggleAutoplay]
    exact ⟨rfl, rfl, rfl, rfl, rfl⟩

/-- C14 at a concrete input: autoplay is already stopped. -/
theorem toggleAutoplay_notifies_witness :
    step config36 viewer0 (atFrame 3) (.toggleAutoplay false) = (atFrame 3, [.onAutoplayStop]) :=
  (toggleAutoplay_notifies config36 viewer0 (atFrame 3)).2.1 rfl

/-! ## Pointer-driven autoplay control -/

theorem autoplayOutcome_rotateViewerImage (cfg : Config) (v : Viewer) (r : State)
    (e : GestureEvt) (acc : Eff) :
    autoplayOutcome (rotateViewerImage cfg v r e acc) = autoplayOutcome acc := by
  simp only [rotateViewerImage, nextMove, prevMove, nextFrame, prevFrame, fire, setMoveBuffer,
    setCurrentImageIndex, autoplayOutcome]
  split_ifs <;> simp [List.count_append]

theorem autoplayOutcome_toggleAutoplay (b : Bool) (acc : Eff) :
    autoplayOutcome (toggleAutoplay b acc)
      = (b, (autoplayOutcome acc).2.1 + (if b then 1 else 0),
         (autoplayOutcome acc).2.2 + (if b then 0 else 1)) := by
  cases b <;> simp [toggleAutoplay, fire, setIsAutoPlayRunning, autoplayOutcome,
    List.count_append]

theorem autoplayOutcome_startDragging (acc : Eff) :
    autoplayOutcome (startDragging acc) = autoplayOutcome acc := by
  simp [startDragging, fire, setIsDragging, autoplayOutcome, List.count_append]

theorem autoplayOutcome_stopDragging (acc : Eff) :
    autoplayOutcome (stopDragging acc) = autoplayOutcome acc := by
  simp [stopDragging, fire, setIsDragging, autoplayOutcome, List.count_append]

theorem autoplayOutcome_resetMoveBuffer (acc : Eff) :
    autoplayOutcome (resetMoveBuffer acc) = autoplayOutcome acc := rfl

theorem autoplayOutcome_start (s : State) :
    autoplayOutcome (s, []) = (s.isAutoPlayRunning, 0, 0) := rfl

/-- C15. Pointer-driven autoplay control. A mouse-down and a touch-start stop
autoplay (flag false, one `onAutoplayStop`) exactly when it is running and
`stopAutoplayOnClick` is set; a mouse-enter does so exactly when it is running and
`stopAutoplayOnMouseEnter` is set; a mouse-leave and a touch-end start it (flag true,
one `onAutoplayStart`) exactly when it is not running and `resumeAutoplayOnMouseLeave`
is set. In every other case the flag is unchanged and neither notification fires. -/
theorem pointer_autoplay_control (cfg : Config) (v : Viewer) (s : State) :
    (∀ x : Int, autoplayOutcome (step cfg v s (.mouseDown x))
        = if s.isAutoPlayRunning && cfg.stopAutoplayOnClick then (false, 0, 1)
          else (s.isAutoPlayRunning, 0, 0))
    ∧ (∀ x : Rat, autoplayOutcome (step cfg v s (.touchStart x))
        = if s.isAutoPlayRunning && cfg.stopAutoplayOnClick then (false, 0, 1)
          else (s.isAutoPlayRunning, 0, 0))
    ∧ autoplayOutcome (step cfg v s .mouseEnter)
        = (if s.isAutoPlayRunning && cfg.stopAutoplayOnMouseEnter then (false, 0, 1)
          else (s.isAutoPlayRunning, 0, 0))
    ∧ autoplayOutcome (step cfg v s .mouseLeave)
        = (if !s.isAutoPlayRunning && cfg.resumeAutoplayOnMouseLeave then (true, 1, 0)
          else (s.isAutoPlayRunning, 0, 0))
    ∧ autoplayOutcome (step cfg v s .touchEnd)
        = (if !s.isAutoPlayRunning && cfg.resumeAutoplayOnMouseLeave then (true, 1, 0)
          else (s.isAutoPlayRunning, 0, 0)) := by
  refine ⟨?_, ?_, ?_, ?_, ?_⟩
  · intro x
    simp only [step, imageViewerMouseDownHandler]
    split_ifs <;> simp [autoplayOutcome_toggleAutoplay, autoplayOutcome_rotateViewerImage,
      autoplayOutcome_startDragging, autoplayOutcome_start]
  · intro x
    simp only [step, imageViewerTouchStartHandler]
    split_ifs <;> simp [autoplayOutcome_toggleAutoplay, autoplayOutcome_rotateViewerImage,
      autoplayOutcome_startDragging, autoplayOutcome_start]
  · simp only [step, imageViewerMouseEnterHandler]
    split_ifs <;> simp [autoplayOutcome_toggleAutoplay, autoplayOutcome_start]
  · simp only [step, imageViewerMouseLeaveHandler]
    split_ifs <;> simp [autoplayOutcome_toggleAutoplay, autoplayOutcome_resetMoveBuffer,
      autoplayOutcome_stopDragging, autoplayOutcome_start]
  · simp only [step, imageViewerTouchEndHandler]
    split_ifs <;> simp [autoplayOutcome_toggleAutoplay, autoplayOutcome_resetMoveBuffer,
      autoplayOutcome_stopDragging, autoplayOutcome_start]

/-! ## Notification order of a move -/

/-- C16. Notification order under inversion: for either value of `inverse` and every
state, `nextMove` fires exactly `onNextMove`, then the frame notification of the
physical tick (`onNextFrame`, or `onPrevFrame` under `inverse`), then `onFrameChange`
with the new index; `prevMove` fires exactly `onPrevMove`, then `onPrevFrame` (or
`onNextFrame` under `inverse`), then `onFrameChange` with the new index. -/
theorem move_notification_order (cfg : Config) (s : State) :
    (nextMove cfg s (s, [])).2
      = [.onNextMove, if cfg.inverse then .onPrevFrame else .onNextFrame,
         .onFrameChange (nextMove cfg s (s, [])).1.currentImageIndex]
    ∧ (prevMove cfg s (s, [])).2
      = [.onPrevMove, if cfg.inverse then .onNextFrame else .onPrevFrame,
         .onFrameChange (prevMove cfg s (s, [])).1.currentImageIndex]
    ∧ (nextMove { cfg with inverse := false } s (s, [])).2
      = [.onNextMove, .onNextFrame, .onFrameChange (nextIndex cfg s)]
    ∧ (nextMove { cfg with inverse := true } s (s, [])).2
      = [.onNextMove, .onPrevFrame, .onFrameChange (prevIndex cfg s)]
    ∧ (prevMove { cfg with inverse := false } s (s, [])).2
      = [.onPrevMove, .onPrevFrame, .onFrameChange (prevIndex cfg s)]
    ∧ (prevMove { cfg with inverse := true } s (s, [])).2
      = [.onPrevMove, .onNextFrame, .onFrameChange (nextIndex cfg s)] := by
  refine ⟨?_, ?_, rfl, rfl, rfl, rfl⟩
  · rw [nextMove_trace]
    cases h : cfg.inverse <;>
      simp [nextMove, nextFrame, prevFrame, fire, setCurrentImageIndex, h]
  · rw [prevMove_trace]
    cases h : cfg.inverse <;>
      simp [prevMove, nextFrame, prevFrame, fire, setCurrentImageIndex, h]

/-! ## Configuration validation -/

/-- C17, the code at the failing input. With the numbering convention, no `format`
and a `location` (the default props when the embedder gives no `format`),
`isValidProps` answers `true`: the test for a missing `format` (line 19) asks for
`images` to be falsy, which `'numbered'` is not. A missing `location` is caught, and
so is a configuration with neither `images` nor `format`. -/
theorem isValidProps_numbered_without_format :
    isValidProps (.str "numbered") none (some "./images") = true
    ∧ isValidProps (.str "numbered") (some "jpg") none = false
    ∧ isValidProps .undefined none (some "./images") = false
    ∧ isValidProps (.str "numbered") (some "jpg") (some "./images") = true
    ∧ isValidProps (.array ["a.jpg", "b.jpg"]) none none = true := by
  refine ⟨by decide, by decide, by decide, by decide, by decide⟩

/-! ## The move buffer -/

theorem pushMove_length_le (b : List Int) (c : Int) : (pushMove b c).length ≤ 2 := by
  unfold pushMove
  split_ifs with h
  · simp only [List.length_append, List.length_singleton]
    omega
  · simp

theorem rotateViewerImage_moveBuffer (cfg : Config) (v : Viewer) (r : State) (e : GestureEvt)
    (acc : Eff) :
    (rotateViewerImage cfg v r e acc).1.moveBuffer = pushMove r.moveBuffer (gestureCoord v e) := by
  simp only [rotateViewerImage, nextMove, prevMove, nextFrame, prevFrame, fire, setMoveBuffer,
    setCurrentImageIndex]
  split_ifs <;> rfl

theorem toggleAutoplay_moveBuffer (b : Bool) (acc : Eff) :
    (toggleAutoplay b acc).1.moveBuffer = acc.1.moveBuffer := by
  cases b <;> rfl

theorem toggleRecording_moveBuffer (r : State) (b : Bool) (acc : Eff) :
    (toggleRecording r b acc).1.moveBuffer = acc.1.moveBuffer := by
  cases b <;> rfl

theorem nextMove_moveBuffer (cfg : Config) (r : State) (acc : Eff) :
    (nextMove cfg r acc).1.moveBuffer = acc.1.moveBuffer := by
  unfold nextMove; split_ifs <;> rfl

theorem prevMove_moveBuffer (cfg : Config) (r : State) (acc : Eff) :
    (prevMove cfg r acc).1.moveBuffer = acc.1.moveBuffer := by
  unfold prevMove; split_ifs <;> rfl

/-- Every event keeps the move buffer within two samples. -/
theorem step_moveBuffer_length (cfg : Config) (v : Viewer) (s : State) (ev : Event)
    (h : s.moveBuffer.length ≤ 2) : (step cfg v s ev).1.moveBuffer.length ≤ 2 := by
  cases ev with
  | mouseDown x =>
    simp only [step, imageViewerMouseDownHandler]
    split_ifs <;> simp [toggleAutoplay_moveBuffer, rotateViewerImage_moveBuffer,
      pushMove_length_le, h]
  | mouseUp =>
    simp only [step, imageViewerMouseUpHandler]
    split_ifs <;> simp [resetMoveBuffer, setMoveBuffer, h]
  | mouseMove x =>
    simp only [step, imageViewerMouseMoveHandler]
    split_ifs <;> simp [rotateViewerImage_moveBuffer, pushMove_length_le, h]
  | mouseLeave =>
    simp only [step, imageViewerMouseLeaveHandler]
    split_ifs <;> simp [toggleAutoplay_moveBuffer, resetMoveBuffer, setMoveBuffer, h]
  | mouseEnter =>
    simp only [step, imageViewerMouseEnterHandler]
    split_ifs <;> simp [toggleAutoplay_moveBuffer, h]
  | click x y u =>
    simp only [step, imageViewerClickHandler]
    split_ifs <;> simp [setPins, h]
  | touchStart x =>
    simp only [step, imageViewerTouchStartHandler]
    split_ifs <;> simp [toggleAutoplay_moveBuffer, rotateViewerImage_moveBuffer,
      pushMove_length_le, h]
  | touchMove x =>
    simp only [step, imageViewerTouchMoveHandler]
    split_ifs <;> simp [rotateViewerImage_moveBuffer, pushMove_length_le, h]
  | touchEnd =>
    simp only [step, imageViewerTouchEndHandler]
    split_ifs <;> simp [toggleAutoplay_moveBuffer, resetMoveBuffer, setMoveBuffer, h]
  | wheel d =>
    simp only [step, imageViewerWheelHandler]
    split_ifs <;> simp [nextMove_moveBuffer, prevMove_moveBuffer, h]
  | pinClick p =>
    simp only [step, pinClickHandler]
    split_ifs <;> simp [fire, h]
  | pinDoubleClick p =>
    simp only [step, pinDoubleClickHandler]
    split_ifs <;> simp [setPins, h]
  | next => simp [step, nextMove_moveBuffer, h]
  | prev => simp [step, prevMove_moveBuffer, h]
  | toggleAutoplay b => simp [step, toggleAutoplay_moveBuffer, h]
  | toggleRecording b => simp [step, toggleRecording_moveBuffer, h]
  | autoplayTick =>
    simp only [step, autoplayTick]
    split_ifs <;> simp [nextMove_moveBuffer, h]

theorem run_moveBuffer_length (cfg : Config) (v : Viewer) (s : State) (evs : List Event)
    (h : s.moveBuffer.length ≤ 2) : (run cfg v s evs).moveBuffer.length ≤ 2 := by
  induction evs generalizing s with
  | nil => exact h
  | cons ev evs ih => exact ih _ (step_moveBuffer_length cfg v s ev h)

theorem mounted_moveBuffer (cfg : Config) : (mounted cfg).moveBuffer = [] := by
  simp only [mounted, autoplayEffect]
  split_ifs <;> simp [toggleAutoplay_moveBuffer, initialState]

/-- C18. Move buffer sliding window: in every state reachable from the mounted
(empty-buffer) state the move buffer has length 0, 1 or 2; `rotateViewerImage` stores
the pushed buffer, in which a sample arriving at a buffer of length below 2 is
appended at the end and a sample arriving at `[a, b]` gives `[b, coord]`. -/
theorem moveBuffer_sliding_window (cfg : Config) (v : Viewer) :
    (∀ s : State, Reachable cfg v s →
        s.moveBuffer.length = 0 ∨ s.moveBuffer.length = 1 ∨ s.moveBuffer.length = 2)
    ∧ (∀ (r : State) (e : GestureEvt) (acc : Eff),
        (rotateViewerImage cfg v r e acc).1.moveBuffer
          = pushMove r.moveBuffer (gestureCoord v e))
    ∧ (∀ (b : List Int) (coord : Int), b.length < 2 → pushMove b coord = b ++ [coord])
    ∧ (∀ a b coord : Int, pushMove [a, b] coord = [b, coord]) := by
  refine ⟨?_, rotateViewerImage_moveBuffer cfg v, ?_, fun a b c => pushMove_two a b c []⟩
  · rintro s ⟨evs, rfl⟩
    have h := run_moveBuffer_length cfg v (mounted cfg) evs (by simp [mounted_moveBuffer])
    omega
  · intro b coord hb
    simp [pushMove, hb]

/-- C18 at a concrete input: a mouse drag over three samples; the buffer holds the
last two. -/
theorem moveBuffer_sliding_window_witness :
    (run config36 viewer0 (mounted config36)
        [.mouseDown 10, .mouseMove 12, .mouseMove 15]).moveBuffer = [12, 15]
    ∧ ((run config36 viewer0 (mounted config36)
          [.mouseDown 10, .mouseMove 12, .mouseMove 15]).moveBuffer.length = 0
      ∨ (run config36 viewer0 (mounted config36)
          [.mouseDown 10, .mouseMove 12, .mouseMove 15]).moveBuffer.length = 1
      ∨ (run config36 viewer0 (mounted config36)
          [.mouseDown 10, .mouseMove 12, .mouseMove 15]).moveBuffer.length = 2) :=
  ⟨by decide,
   (moveBuffer_sliding_window config36 viewer0).1 _
     ⟨[.mouseDown 10, .mouseMove 12, .mouseMove 15], rfl⟩⟩

/-! ## The end of a drag -/

theorem rotateViewerImage_onDragEnd (cfg : Config) (v : Viewer) (r : State) (e : GestureEvt)
    (acc : Eff) :
    Notif.onDragEnd ∈ (rotateViewerImage cfg v r e acc).2 ↔ Notif.onDragEnd ∈ acc.2 := by
  simp only [rotateViewerImage, nextMove, prevMove, nextFrame, prevFrame, fire, setMoveBuffer,
    setCurrentImageIndex]
  split_ifs <;> simp

theorem toggleAutoplay_onDragEnd (b : Bool) (acc : Eff) :
    Notif.onDragEnd ∈ (toggleAutoplay b acc).2 ↔ Notif.onDragEnd ∈ acc.2 := by
  cases b <;> simp [toggleAutoplay, fire, setIsAutoPlayRunning]

theorem nextMove_onDragEnd (cfg : Config) (r : State) (acc : Eff) :
    Notif.onDragEnd ∈ (nextMove cfg r acc).2 ↔ Notif.onDragEnd ∈ acc.2 := by
  simp only [nextMove, nextFrame, prevFrame, fire, setCurrentImageIndex]
  split_ifs <;> simp

theorem prevMove_onDragEnd (cfg : Config) (r : State) (acc : Eff) :
    Notif.onDragEnd ∈ (prevMove cfg r acc).2 ↔ Notif.onDragEnd ∈ acc.2 := by
  simp only [prevMove, nextFrame, prevFrame, fire, setCurrentImageIndex]
  split_ifs <;> simp

theorem toggleAutoplay_isDragging (b : Bool) (acc : Eff) :
    (toggleAutoplay b acc).1.isDragging = acc.1.isDragging := by
  cases b <;> rfl

/-- An event that fires `onDragEnd` leaves the move buffer empty and `isDragging` false. -/
theorem step_onDragEnd (cfg : Config) (v : Viewer) (s : State) (ev : Event)
    (h : Notif.onDragEnd ∈ (step cfg v s ev).2) :
    (step cfg v s ev).1.moveBuffer = [] ∧ (step cfg v s ev).1.isDragging = false := by
  cases ev with
  | mouseDown x =>
    exfalso; revert h
    simp only [step, imageViewerMouseDownHandler]
    split_ifs <;> simp [toggleAutoplay_onDragEnd, rotateViewerImage_onDragEnd, startDragging,
      fire, setIsDragging]
  | mouseUp =>
    revert h
    simp only [step, imageViewerMouseUpHandler]
    split_ifs <;> simp [resetMoveBuffer, setMoveBuffer, stopDragging, fire, setIsDragging]
  | mouseMove x =>
    exfalso; revert h
    simp only [step, imageViewerMouseMoveHandler]
    split_ifs <;> simp [rotateViewerImage_onDragEnd]
  | mouseLeave =>
    revert h
    simp only [step, imageViewerMouseLeaveHandler]
    split_ifs <;> simp [toggleAutoplay_onDragEnd, toggleAutoplay_moveBuffer,
      toggleAutoplay_isDragging, resetMoveBuffer, setMoveBuffer, stopDragging, fire,
      setIsDragging]
  | mouseEnter =>
    exfalso; revert h
    simp only [step, imageViewerMouseEnterHandler]
    split_ifs <;> simp [toggleAutoplay_onDragEnd]
  | click x y u =>
    exfalso; revert h
    simp only [step, imageViewerClickHandler]
    split_ifs <;> simp [setPins]
  | touchStart x =>
    exfalso; revert h
    simp only [step, imageViewerTouchStartHandler]
    split_ifs <;> simp [toggleAutoplay_onDragEnd, rotateViewerImage_onDragEnd, startDragging,
      fire, setIsDragging]
  | touchMove x =>
    exfalso; revert h
    simp only [step, imageViewerTouchMoveHandler]
    split_ifs <;> simp [rotateViewerImage_onDragEnd]
  | touchEnd =>
    revert h
    simp only [step, imageViewerTouchEndHandler]
    split_ifs <;> simp [toggleAutoplay_onDragEnd, toggleAutoplay_moveBuffer,
      toggleAutoplay_isDragging, resetMoveBuffer, setMoveBuffer, stopDragging, fire,
      setIsDragging]
  | wheel d =>
    exfalso; revert h
    simp only [step, imageViewerWheelHandler]
    split_ifs <;> simp [nextMove_onDragEnd, prevMove_onDragEnd]
  | pinClick p =>
    exfalso; revert h
    simp only [step, pinClickHandler]
    split_ifs <;> simp [fire]
  | pinDoubleClick p =>
    exfalso; revert h
    simp only [step, pinDoubleClickHandler]
    split_ifs <;> simp [setPins]
  | next => exfalso; revert h; simp [step, nextMove_onDragEnd]
  | prev => exfalso; revert h; simp [step, prevMove_onDragEnd]
  | toggleAutoplay b => exfalso; revert h; simp [step, toggleAutoplay_onDragEnd]
  | toggleRecording b => exfalso; revert h; cases b <;> simp [step, toggleRecording, fire,
      setIsRecording]
  | autoplayTick =>
    exfalso; revert h
    simp only [step, autoplayTick]
    split_ifs <;> simp [nextMove_onDragEnd]

theorem not_ticked_of_empty_buffer (cfg : Config) (v : Viewer) (r a : State) (e : GestureEvt)
    (h : r.moveBuffer = []) : ¬ Ticked (rotateViewerImage cfg v r e (a, [])).2 := by
  rw [rotateViewerImage_first cfg v r a e h]
  simp [Ticked]

/-- C19. The move buffer is reset whenever a drag ends or is cancelled: every event
that fires `onDragEnd` leaves the buffer empty and `isDragging` false; these events
are the mouse-up with the effective `_draggable`, the mouse-leave with
`mouseleaveDetect` and the touch-end with `touch`; and the first sample handed to
`rotateViewerImage` after such an event produces no tick. -/
theorem drag_end_resets_moveBuffer (cfg : Config) (v : Viewer) (s : State) :
    (∀ ev : Event, Notif.onDragEnd ∈ (step cfg v s ev).2 →
        (step cfg v s ev).1.moveBuffer = [] ∧ (step cfg v s ev).1.isDragging = false
        ∧ ∀ (e : GestureEvt) (a : State),
            ¬ Ticked (rotateViewerImage cfg v (step cfg v s ev).1 e (a, [])).2)
    ∧ (_draggable cfg s = true →
        step cfg v s .mouseUp = ({ s with moveBuffer := [], isDragging := false }, [.onDragEnd]))
    ∧ (cfg.mouseleaveDetect = true →
        Notif.onDragEnd ∈ (step cfg v s .mouseLeave).2
        ∧ (step cfg v s .mouseLeave).1.moveBuffer = []
        ∧ (step cfg v s .mouseLeave).1.isDragging = false)
    ∧ (cfg.touch = true →
        Notif.onDragEnd ∈ (step cfg v s .touchEnd).2
        ∧ (step cfg v s .touchEnd).1.moveBuffer = []
        ∧ (step cfg v s .touchEnd).1.isDragging = false) := by
  refine ⟨?_, ?_, ?_, ?_⟩
  · intro ev h
    obtain ⟨hb, hd⟩ := step_onDragEnd cfg v s ev h
    exact ⟨hb, hd, fun e a => not_ticked_of_empty_buffer cfg v _ a e hb⟩
  · intro hd
    simp [step, imageViewerMouseUpHandler, hd, resetMoveBuffer, setMoveBuffer, stopDragging,
      fire, setIsDragging]
  · intro hm
    have h : Notif.onDragEnd ∈ (step cfg v s .mouseLeave).2 := by
      simp [step, imageViewerMouseLeaveHandler, hm, resetMoveBuffer, setMoveBuffer,
        stopDragging, fire, setIsDragging]
    exact ⟨h, step_onDragEnd cfg v s .mouseLeave h⟩
  · intro ht
    have h : Notif.onDragEnd ∈ (step cfg v s .touchEnd).2 := by
      simp only [step, imageViewerTouchEndHandler, ht, if_true]
      split_ifs <;> simp [toggleAutoplay_onDragEnd, resetMoveBuffer, setMoveBuffer,
        stopDragging, fire, setIsDragging]
    exact ⟨h, step_onDragEnd cfg v s .touchEnd h⟩

/-- C19 at a concrete input: a mouse-up in the middle of a drag. -/
theorem drag_end_resets_moveBuffer_witness :
    step config36 viewer0 (dragAt 7) .mouseUp = (atFrame 0, [.onDragEnd])
    ∧ (step config36 viewer0 (dragAt 7) .mouseUp).1.moveBuffer = [] :=
  ⟨(drag_end_resets_moveBuffer config36 viewer0 (dragAt 7)).2.1 rfl,
   ((drag_end_resets_moveBuffer config36 viewer0 (dragAt 7)).1 .mouseUp (by decide)).1⟩

/-! ## The wheel -/

/-- C20. Wheel mapping: with `mousewheel` enabled a wheel event performs exactly one
move, `nextMove` when `deltaY > 0` and `prevMove` for every other `deltaY`, whatever
`draggable`, `isDragging` and `isRecording` are, and leaves the move buffer alone;
with `mousewheel` disabled it changes no state and fires nothing. -/
theorem wheel_mapping (cfg : Config) (v : Viewer) (s : State) (deltaY : Int) :
    (cfg.mousewheel = true → 0 < deltaY →
        step cfg v s (.wheel deltaY) = nextMove cfg s (s, []))
    ∧ (cfg.mousewheel = true → deltaY ≤ 0 →
        step cfg v s (.wheel deltaY) = prevMove cfg s (s, []))
    ∧ (cfg.mousewheel = true → (step cfg v s (.wheel deltaY)).1.moveBuffer = s.moveBuffer)
    ∧ (∀ dr dg rc : Bool,
        (step { cfg with draggable := dr } v { s with isDragging := dg, isRecording := rc }
            (.wheel deltaY)).2 = (step cfg v s (.wheel deltaY)).2
        ∧ (step { cfg with draggable := dr } v { s with isDragging := dg, isRecording := rc }
            (.wheel deltaY)).1.currentImageIndex
          = (step cfg v s (.wheel deltaY)).1.currentImageIndex)
    ∧ (cfg.mousewheel = false → step cfg v s (.wheel deltaY) = (s, [])) := by
  refine ⟨?_, ?_, ?_, ?_, ?_⟩
  · intro hw hd
    simp [step, imageViewerWheelHandler, hw, hd]
  · intro hw hd
    have : ¬ deltaY > 0 := by omega
    simp [step, imageViewerWheelHandler, hw, this]
  · intro hw
    simp only [step, imageViewerWheelHandler, hw, if_true]
    split_ifs <;> simp [nextMove_moveBuffer, prevMove_moveBuffer]
  · intro dr dg rc
    simp only [step, imageViewerWheelHandler, nextMove, prevMove, nextFrame, prevFrame, fire,
      setCurrentImageIndex, nextIndex, prevIndex]
    split_ifs <;> exact ⟨rfl, rfl⟩
  · intro hw
    simp [step, imageViewerWheelHandler, hw]

/-- C20 at concrete inputs: the wheel is enabled and recording is on; a positive
`deltaY` moves to the next frame, a zero `deltaY` to the previous one. -/
theorem wheel_mapping_witness :
    step { count := 36, mousewheel := true } viewer0 (recordingAt 3 []) (.wheel 120)
      = (recordingAt 4 [], [.onNextMove, .onNextFrame, .onFrameChange 4])
    ∧ step { count := 36, mousewheel := true } viewer0 (recordingAt 3 []) (.wheel 0)
      = (recordingAt 2 [], [.onPrevMove, .onPrevFrame, .onFrameChange 2])
    ∧ step config36 viewer0 (recordingAt 3 []) (.wheel 120) = (recordingAt 3 [], []) :=
  ⟨((wheel_mapping { count := 36, mousewheel := true } viewer0 (recordingAt 3 []) 120).1
      rfl (by decide)).trans (by decide),
   ((wheel_mapping { count := 36, mousewheel := true } viewer0 (recordingAt 3 []) 0).2.1
      rfl (by decide)).trans (by decide),
   (wheel_mapping config36 viewer0 (recordingAt 3 []) 120).2.2.2.2 rfl⟩

end Tridi
